import Mathlib

/-!
# raftstarter: the key-value state machine, the store and the HTTP binding

A shallow embedding of `store/fsm.go`, `store/store.go` and `httpd/httpd.go`.

Modelling conventions for what lies outside the repository:

* A Go string is a byte string (`GoString`).  Keys, paths and the `Key` field
  are Go strings; `json.Marshal` writes one as JSON text, in which every byte
  that starts no valid UTF-8 encoding becomes U+FFFD (`jsonText`), and the
  decoder stores a JSON text as its UTF-8 encoding (`GoString.lit`).
* JSON strings and member names are texts (Lean strings): the decoder yields
  nothing else.
* A JSON byte string (`Bytes`) is kept as what `encoding/json` finds in it: no
  JSON value at its start, exactly one JSON document, or a JSON document
  followed by other bytes.  A value nested in a document is identified with
  the Go value that decoding it into an `interface{}` yields, and
  `json.Marshal` of such a value gives that document back.
* The members of a top-level object are kept in the order of the text, with
  repetitions, and are processed one by one as the decoder does.
* Go maps are reference objects: their contents live in a `Heap`, and a map
  variable holds an address, or nothing for the nil map.
* The order in which `range` visits a map is chosen by the Go runtime; it is
  an argument (`range`) of the functions that iterate.
* The consensus engine (`hashicorp/raft`) is a parameter: its role, and for
  every submitted entry whether it is committed or fails (`Raft.verdict`).
* The mutex and the logger have no counterpart: every function below runs
  alone, from its call to its return.
-/

namespace Raftstarter

/-! ## Go strings and UTF-8 -/

/-- A Go string: a sequence of bytes, each a natural number below 256. -/
abbrev GoString := List Nat

/-- The function `utf8.EncodeRune`: the one to four bytes of a rune. -/
def encodeRune (c : Char) : GoString :=
  if c.toNat < 0x80 then [c.toNat]
  else if c.toNat < 0x800 then [0xC0 + c.toNat / 64, 0x80 + c.toNat % 64]
  else if c.toNat < 0x10000 then
    [0xE0 + c.toNat / 4096, 0x80 + c.toNat / 64 % 64, 0x80 + c.toNat % 64]
  else
    [0xF0 + c.toNat / 262144, 0x80 + c.toNat / 4096 % 64, 0x80 + c.toNat / 64 % 64,
      0x80 + c.toNat % 64]

/-- The UTF-8 encoding of a sequence of runes. -/
def encodeRunes : List Char → GoString
  | [] => []
  | c :: cs => encodeRune c ++ encodeRunes cs

/-- The Go string that holds a text: a string literal of the source, or what
the JSON decoder stores for a JSON string.  The Go strings of this form are
the valid UTF-8 strings. -/
def GoString.lit (s : String) : GoString := encodeRunes s.data

/-- The function `utf8.DecodeRuneInString`: the rune encoded at the start of
the bytes and its width, or nothing when no valid encoding starts there (Go
returns `RuneError` with width 1).  The second byte must lie in the range the
first byte accepts, which excludes over-long forms, surrogates and runes
above U+10FFFF. -/
def decodeRune : GoString → Option (Char × Nat)
  | [] => none
  | s0 :: rest =>
    if s0 < 0x80 then some (Char.ofNat s0, 1)
    else if s0 < 0xC2 then none
    else if s0 < 0xE0 then
      match rest with
      | s1 :: _ =>
        if 0x80 ≤ s1 ∧ s1 ≤ 0xBF then some (Char.ofNat ((s0 - 0xC0) * 64 + (s1 - 0x80)), 2)
        else none
      | [] => none
    else if s0 < 0xF0 then
      match rest with
      | s1 :: s2 :: _ =>
        if (if s0 = 0xE0 then 0xA0 else 0x80) ≤ s1 ∧ s1 ≤ (if s0 = 0xED then 0x9F else 0xBF) ∧
            0x80 ≤ s2 ∧ s2 ≤ 0xBF then
          some (Char.ofNat ((s0 - 0xE0) * 4096 + (s1 - 0x80) * 64 + (s2 - 0x80)), 3)
        else none
      | _ => none
    else if s0 < 0xF5 then
      match rest with
      | s1 :: s2 :: s3 :: _ =>
        if (if s0 = 0xF0 then 0x90 else 0x80) ≤ s1 ∧ s1 ≤ (if s0 = 0xF4 then 0x8F else 0xBF) ∧
            0x80 ≤ s2 ∧ s2 ≤ 0xBF ∧ 0x80 ≤ s3 ∧ s3 ≤ 0xBF then
          some (Char.ofNat ((s0 - 0xF0) * 262144 + (s1 - 0x80) * 4096 + (s2 - 0x80) * 64
            + (s3 - 0x80)), 4)
        else none
      | _ => none
    else none

/-- The loop of the JSON string encoder over the bytes of a Go string, read
back as runes: `skip` bytes of a rune already emitted are passed over; then a
valid rune is emitted and its width consumed, and a byte that starts no valid
encoding is emitted as U+FFFD and consumed alone. -/
def jsonRunes : Nat → GoString → List Char
  | _, [] => []
  | skip + 1, _ :: bs => jsonRunes skip bs
  | 0, b :: bs =>
    match decodeRune (b :: bs) with
    | some (c, size) => c :: jsonRunes (size - 1) bs
    | none => Char.ofNat 0xFFFD :: jsonRunes 0 bs

/-- The text of the JSON string `json.Marshal` writes for a Go string: its
runes, with U+FFFD for every byte that is not part of a valid encoding. -/
def jsonText (k : GoString) : String := String.mk (jsonRunes 0 k)

/-- The loop of `utf8.ValidString` over the bytes of a Go string: `skip`
bytes of a rune already accepted are passed over; a valid rune is accepted
and its width consumed; a byte that starts no valid encoding makes the
string invalid. -/
def validRunes : Nat → GoString → Bool
  | _, [] => true
  | skip + 1, _ :: bs => validRunes skip bs
  | 0, b :: bs =>
    match decodeRune (b :: bs) with
    | some (_, size) => validRunes (size - 1) bs
    | none => false

/-- The function `utf8.ValidString`: the Go string consists of valid UTF-8
encodings only. -/
def ValidString (k : GoString) : Bool := validRunes 0 k

/-! ## JSON values and bytes -/

/-- A finite IEEE-754 double, the Go type a JSON number decodes into when the
target is an `interface{}`, written as mantissa and binary exponent.  The
store never inspects or computes with one. -/
structure Float64 where
  mant : Int
  pow : Int
deriving DecidableEq, Repr

/-- A Go value held in an `interface{}` after JSON decoding: nil, bool,
float64, string, `[]interface{}` or `map[string]interface{}`.  Strings and
member names are texts, as the decoder produces them. -/
inductive JSON where
  | null
  | bool (b : Bool)
  | number (n : Float64)
  | string (s : String)
  | array (xs : List JSON)
  | object (ms : List (String × JSON))

mutual
/-- Decision of equality of two JSON values, by structural comparison. -/
def JSON.decEq (a b : JSON) : Decidable (a = b) :=
  match a, b with
  | .null, .null => isTrue rfl
  | .bool x, .bool y => decidable_of_iff (x = y) (by simp)
  | .number x, .number y => decidable_of_iff (x = y) (by simp)
  | .string x, .string y => decidable_of_iff (x = y) (by simp)
  | .array xs, .array ys => @decidable_of_iff _ (xs = ys) (by simp) (JSON.decEqList xs ys)
  | .object xs, .object ys => @decidable_of_iff _ (xs = ys) (by simp) (JSON.decEqMembers xs ys)
  | .null, .bool _ | .null, .number _ | .null, .string _ | .null, .array _ | .null, .object _
  | .bool _, .null | .bool _, .number _ | .bool _, .string _ | .bool _, .array _
  | .bool _, .object _
  | .number _, .null | .number _, .bool _ | .number _, .string _ | .number _, .array _
  | .number _, .object _
  | .string _, .null | .string _, .bool _ | .string _, .number _ | .string _, .array _
  | .string _, .object _
  | .array _, .null | .array _, .bool _ | .array _, .number _ | .array _, .string _
  | .array _, .object _
  | .object _, .null | .object _, .bool _ | .object _, .number _ | .object _, .string _
  | .object _, .array _ => isFalse nofun
/-- Decision of equality of two lists of JSON values. -/
def JSON.decEqList (a b : List JSON) : Decidable (a = b) :=
  match a, b with
  | [], [] => isTrue rfl
  | x :: xs, y :: ys =>
    @decidable_of_iff _ (x = y ∧ xs = ys) (by simp)
      (@instDecidableAnd _ _ (JSON.decEq x y) (JSON.decEqList xs ys))
  | [], _ :: _ | _ :: _, [] => isFalse nofun
/-- Decision of equality of two member lists. -/
def JSON.decEqMembers (a b : List (String × JSON)) : Decidable (a = b) :=
  match a, b with
  | [], [] => isTrue rfl
  | (k, x) :: xs, (l, y) :: ys =>
    @decidable_of_iff _ (k = l ∧ x = y ∧ xs = ys) (by simp [and_assoc])
      (@instDecidableAnd _ _ _
        (@instDecidableAnd _ _ (JSON.decEq x y) (JSON.decEqMembers xs ys)))
  | [], _ :: _ | _ :: _, [] => isFalse nofun
end

instance : DecidableEq JSON := JSON.decEq

/-- The name `encoding/json` gives the kind of a value in its type errors. -/
def JSON.kind : JSON → String
  | .null => "null"
  | .bool _ => "bool"
  | .number _ => "number"
  | .string _ => "string"
  | .array _ => "array"
  | .object _ => "object"

/-- A JSON byte string (`[]byte`, a request body, a snapshot stream):
`invalid` when no JSON value that `encoding/json` can decode stands at its
start (it is not JSON there, or holds a number outside float64); `doc j`
when it is the document `j` and nothing else but white space; `docThen j`
when the document `j` at its start is followed by other bytes. -/
inductive Bytes where
  | invalid
  | doc (j : JSON)
  | docThen (j : JSON)
deriving DecidableEq

/-- What a stream decoder (`json.NewDecoder(r).Decode`) reads: the first JSON
value of the stream; what follows it is left unread. -/
def Bytes.first : Bytes → Option JSON
  | Bytes.invalid => none
  | Bytes.doc j => some j
  | Bytes.docThen j => some j

/-- A Go `error`: nil, or an error with its message. -/
abbrev Error := Option String

/-! ## store/fsm.go: the command and its codec -/

/-- The struct `command` of fsm.go; all three fields carry `omitempty`.  `Key`
is a Go string.  `Op` is kept as a text: the program stores in it only the
literals "set" and "delete" and what the decoder yields. -/
structure command where
  Op : String := ""
  Key : GoString := []
  Value : JSON := JSON.null
deriving DecidableEq

/-- What `json.Marshal(c)` writes for a `command`: the members `op`, `key`,
`value` in field order, each left out when `omitempty` finds it empty (the
empty string; for the `interface{}` field, nil only).  The key is written as
JSON text, with U+FFFD for its invalid bytes. -/
def Marshal (c : command) : Bytes :=
  Bytes.doc (JSON.object (
    (if c.Op = "" then [] else [("op", JSON.string c.Op)]) ++
    (if c.Key = [] then [] else [("key", JSON.string (jsonText c.Key))]) ++
    (if c.Value = JSON.null then [] else [("value", c.Value)])))

/-- Case folding of one rune as the decoder applies it to member names: ASCII
letters to upper case, and the two runes that fold onto ASCII letters (the
long s and the Kelvin sign). -/
def foldRune (c : Char) : Char :=
  if 97 ≤ c.toNat ∧ c.toNat ≤ 122 then Char.ofNat (c.toNat - 32)
  else if c.toNat = 0x17F then 'S'
  else if c.toNat = 0x212A then 'K'
  else c

/-- Folded form of a member name. -/
def foldName (s : String) : String := String.mk (s.data.map foldRune)

/-- The fields of `command` a member name can select. -/
inductive Field where
  | op
  | key
  | value
deriving DecidableEq

/-- Field selected by a member name: the exact JSON name first, then a match
up to case folding; other names select nothing and their values are skipped. -/
def lookupField (name : String) : Option Field :=
  if name = "op" then some Field.op
  else if name = "key" then some Field.key
  else if name = "value" then some Field.value
  else if foldName name = "OP" then some Field.op
  else if foldName name = "KEY" then some Field.key
  else if foldName name = "VALUE" then some Field.value
  else none

/-- Keeps the first error, as the decoder's saved error does. -/
def saveError (saved : Error) (e : String) : Error :=
  match saved with
  | some old => some old
  | none => some e

/-- Decoding of a member value into a Go string field: the text to store for
a JSON string; nothing to store for null, which leaves the field as it is,
and for anything else, which is a type error. -/
def decodeString (field : String) (v : JSON) (saved : Error) : Option String × Error :=
  match v with
  | JSON.string s => (some s, saved)
  | JSON.null => (none, saved)
  | other =>
    (none, saveError saved
      ("json: cannot unmarshal " ++ other.kind ++ " into Go struct field command." ++ field ++
        " of type string"))

/-- One member of the object decoded into the command. -/
def decodeMember (acc : command × Error) (mem : String × JSON) : command × Error :=
  match lookupField mem.1 with
  | some Field.op =>
    let r := decodeString "op" mem.2 acc.2
    ({ acc.1 with Op := r.1.getD acc.1.Op }, r.2)
  | some Field.key =>
    let r := decodeString "key" mem.2 acc.2
    ({ acc.1 with Key := (r.1.map GoString.lit).getD acc.1.Key }, r.2)
  | some Field.value => ({ acc.1 with Value := mem.2 }, acc.2)
  | none => acc

/-- What `json.Unmarshal(data, &c)` leaves in `c` and returns: bytes that are
not one JSON document (invalid, or a document followed by other bytes) are
refused before `c` is touched; null has no effect on a struct; an object is
decoded member by member; any other document is a type error. -/
def Unmarshal (data : Bytes) (c : command) : command × Error :=
  match data with
  | Bytes.invalid => (c, some "invalid character looking for beginning of value")
  | Bytes.docThen _ => (c, some "invalid character after top-level value")
  | Bytes.doc JSON.null => (c, none)
  | Bytes.doc (JSON.object ms) => ms.foldl decodeMember (c, none)
  | Bytes.doc other =>
    (c, some ("json: cannot unmarshal " ++ other.kind ++ " into Go value of type store.command"))

/-! ## Go maps and the heap -/

/-- The contents of a `map[string]interface{}`. -/
abbrev GoMap := GoString → Option JSON

/-- The empty map, as `make` returns it. -/
def GoMap.empty : GoMap := fun _ => none

/-- The contents after `m[key] = value`. -/
def GoMap.set (m : GoMap) (key : GoString) (value : JSON) : GoMap :=
  fun k => if k = key then some value else m k

/-- The contents after `delete(m, key)`. -/
def GoMap.delete (m : GoMap) (key : GoString) : GoMap :=
  fun k => if k = key then none else m k

/-- The value of the index expression `m[key]`: nil for an absent key. -/
def GoMap.index (m : GoMap) (key : GoString) : JSON := (m key).getD JSON.null

/-- The list `l` visits every entry of `m` once: what one `range` over `m`
may produce, in whatever order the runtime picks. -/
def GoMap.Enumerates (m : GoMap) (l : List (GoString × JSON)) : Prop :=
  (l.map Prod.fst).Nodup ∧ ∀ k v, (k, v) ∈ l ↔ m k = some v

/-- The entries one `range` over a map variable visits: none for the nil
map; for a map object its entries, in the order the runtime picks. -/
def rangeOver (range : GoMap → List (GoString × JSON)) (m : Option GoMap) :
    List (GoString × JSON) :=
  match m with
  | none => []
  | some c => range c

/-- The map entries the members of a JSON object decode into: each member
name is stored as a Go string. -/
def entriesOf (ms : List (String × JSON)) : List (GoString × JSON) :=
  ms.map (fun p => (GoString.lit p.1, p.2))

/-- What `json.NewDecoder(r).Decode(&o)` leaves in a variable `o` of type
`map[string]interface{}` (`none` is the nil map) and returns.  The decoder
reads the first JSON value of the stream and ignores what follows it: null
sets the variable to nil; the members of an object are stored one by one
into the map (made first when the variable is nil); any other value is a
type error. -/
def DecodeMap (data : Bytes) (o : Option GoMap) : Option GoMap × Error :=
  match data.first with
  | none => (o, some "invalid character looking for beginning of value")
  | some JSON.null => (none, none)
  | some (JSON.object ms) =>
    (some ((entriesOf ms).foldl (fun m kv => m.set kv.1 kv.2) (o.getD GoMap.empty)), none)
  | some other =>
    (o, some ("json: cannot unmarshal " ++ other.kind ++
      " into Go value of type map[string]interface \x7b\x7d"))

/-- The map objects allocated so far, by address, and the next free address. -/
structure Heap where
  maps : Nat → GoMap
  next : Nat

/-- Allocation of an empty map (`make(map[string]interface{})`): the new
address and the heap holding it. -/
def Heap.make (h : Heap) : Nat × Heap :=
  (h.next, { maps := Function.update h.maps h.next GoMap.empty, next := h.next + 1 })

/-- Replaces the contents of the map object at address `a`. -/
def Heap.write (h : Heap) (a : Nat) (m : GoMap) : Heap :=
  { h with maps := Function.update h.maps a m }

/-! ## store/store.go: the store -/

/-- The roles a `raft.Raft` reports through `State()`. -/
inductive RaftState where
  | Follower
  | Candidate
  | Leader
  | Shutdown
deriving DecidableEq, Repr

/-- The consensus engine as this node sees it: its role, what it does with
the n-th entry submitted through `raft.Apply` (`none`: the entry is committed
and applied to the local state machine before the future resolves without
error; `some e`: it is not committed and the future resolves with `e`), and
the entries submitted so far, oldest first. -/
structure Raft where
  state : RaftState
  verdict : Nat → Error
  entries : List Bytes

/-- The struct `Store` (and `fsm`, the same struct under another name); `m`
holds the address of the map object, or nothing for the nil map. -/
structure Store where
  raft : Raft
  m : Option Nat

/-- The type `fsm` of fsm.go. -/
abbrev fsm := Store

/-- A running node: the store, the heap its map pointers refer to, and the
message of the panic that took the process down, if one did. -/
structure Node where
  store : Store
  heap : Heap
  halted : Option String := none

/-- The contents of the store's map `s.m` (a nil map reads as empty). -/
def Node.content (n : Node) : GoMap :=
  match n.store.m with
  | some a => n.heap.maps a
  | none => GoMap.empty

/-- The entry `raft.Log` handed to the state machine; only `Data` is read. -/
structure Log where
  Data : Bytes

/-- How a call that may panic ends. -/
inductive Outcome where
  | returned (v : JSON)
  | panicked (msg : String)
deriving DecidableEq

/-- The method `applySet`: `f.m[key] = value`; a write to a nil map is a
run-time panic. Returns nil. -/
def fsm.applySet (n : Node) (key : GoString) (value : JSON) : Node × Outcome :=
  match n.store.m with
  | some a =>
    ({ n with heap := n.heap.write a ((n.heap.maps a).set key value) }, Outcome.returned JSON.null)
  | none => (n, Outcome.panicked "assignment to entry in nil map")

/-- The method `applyDelete`: `delete(f.m, key)`, which does nothing on a nil
map. Returns nil. -/
def fsm.applyDelete (n : Node) (key : GoString) : Node × Outcome :=
  match n.store.m with
  | some a =>
    ({ n with heap := n.heap.write a ((n.heap.maps a).delete key) }, Outcome.returned JSON.null)
  | none => (n, Outcome.returned JSON.null)

/-- The method `Apply`: decodes the entry into a zero `command`, panics when
that fails, and dispatches on `c.Op`, panicking on any other op. -/
def fsm.Apply (n : Node) (l : Log) : Node × Outcome :=
  match Unmarshal l.Data {} with
  | (_, some err) => (n, Outcome.panicked ("failed to unmarshal command: " ++ err))
  | (c, none) =>
    if c.Op = "set" then fsm.applySet n c.Key c.Value
    else if c.Op = "delete" then fsm.applyDelete n c.Key
    else (n, Outcome.panicked ("unrecognized command op: " ++ c.Op))

/-- The value `&fsmSnapshot{store: o}` returned by `Snapshot`: it holds the
address of the cloned map. -/
structure fsmSnapshot where
  store : Nat
deriving DecidableEq

/-- The method `Snapshot`: makes a map `o`, copies every entry `range` visits
in `f.m` into it, and returns the snapshot holding `o` with a nil error. -/
def fsm.Snapshot (range : GoMap → List (GoString × JSON)) (n : Node) :
    Node × fsmSnapshot × Error :=
  let (o, h1) := n.heap.make
  let h2 := (rangeOver range (n.store.m.map n.heap.maps)).foldl
    (fun h kv => h.write o ((h.maps o).set kv.1 kv.2)) h1
  ({ n with heap := h2 }, { store := o }, none)

/-- The method `Restore`: makes a map `o`, decodes the stream into it,
returns the error when that fails, and otherwise points `f.m` at `o`. -/
def fsm.Restore (n : Node) (rc : Bytes) : Node × Error :=
  let (o, h1) := n.heap.make
  match DecodeMap rc (some (h1.maps o)) with
  | (_, some err) => ({ n with heap := h1 }, some err)
  | (none, none) => ({ n with heap := h1, store := { n.store with m := none } }, none)
  | (some c, none) =>
    ({ n with heap := h1.write o c, store := { n.store with m := some o } }, none)

/-- The call `s.raft.Apply(b, raftTimeout)` followed by `f.Error()`: the entry
is recorded as submitted; on the engine's failure verdict its error is
returned and nothing is applied; otherwise the engine hands the committed
entry to `fsm.Apply` on this node and the error is nil.  A panic of
`fsm.Apply` is not recovered: the node is marked halted, and the panic
message stands for the result no caller gets to see. -/
def Raft.Apply (n : Node) (b : Bytes) : Node × Error :=
  let r := n.store.raft
  let n1 : Node := { n with store := { n.store with raft := { r with entries := r.entries ++ [b] } } }
  match r.verdict r.entries.length with
  | some err => (n1, some err)
  | none =>
    match fsm.Apply n1 { Data := b } with
    | (n2, Outcome.returned _) => (n2, none)
    | (n2, Outcome.panicked msg) => ({ n2 with halted := some msg }, some msg)

/-- The function `New`: a store with a fresh empty map and no engine opened
yet; the engine that `Open` attaches is the argument `raft`. -/
def Store.New (raft : Raft) : Node :=
  { store := { raft := raft, m := some 0 },
    heap := { maps := fun _ => GoMap.empty, next := 1 } }

/-- The method `Get`: `s.m[key]` with a nil error. -/
def Store.Get (n : Node) (key : GoString) : JSON × Error :=
  (n.content.index key, none)

/-- The method `Set`: refused with "not leader" unless the engine reports the
Leader role; otherwise the command is marshalled and submitted.  Marshalling
a command whose value came from JSON cannot fail, so the error return after
`json.Marshal` has no counterpart. -/
def Store.Set (n : Node) (key : GoString) (value : JSON) : Node × Error :=
  if n.store.raft.state ≠ RaftState.Leader then (n, some "not leader")
  else Raft.Apply n (Marshal { Op := "set", Key := key, Value := value })

/-- The method `Delete`: refused with "not leader" unless the engine reports
the Leader role; otherwise the command is marshalled and submitted (the
marshalling cannot fail). -/
def Store.Delete (n : Node) (key : GoString) : Node × Error :=
  if n.store.raft.state ≠ RaftState.Leader then (n, some "not leader")
  else Raft.Apply n (Marshal { Op := "delete", Key := key })

/-- The engine delivering a run of committed entries to the state machine:
one `fsm.Apply` call per entry, in log order; a panic halts the node and
nothing after it is applied. -/
def fsm.applyAll : Node → List Log → Node
  | n, [] => n
  | n, l :: ls =>
    match fsm.Apply n l with
    | (n1, Outcome.returned _) => fsm.applyAll n1 ls
    | (n1, Outcome.panicked msg) => { n1 with halted := some msg }

/-- Modelled from the spec: `fsmSnapshot.Persist` is not among the sources;
section 6 gives the persisted format as "a single JSON object mapping every
live key to its value".  The bytes `b` are a persisted form of the snapshot
when they are an object document whose members, the name of each read as a
key, list every entry of the snapshot's map once, in any order. -/
def fsmSnapshot.PersistedAs (snap : fsmSnapshot) (h : Heap) (b : Bytes) : Prop :=
  ∃ ms, b = Bytes.doc (JSON.object ms) ∧ GoMap.Enumerates (h.maps snap.store) (entriesOf ms)

/-! ## httpd/httpd.go: the HTTP binding -/

/-- The interface `storeInterface`, over the state `σ` of whatever implements
it; every method returns the state it leaves with its Go results. -/
structure storeInterface (σ : Type) where
  Get : σ → GoString → σ × JSON × Error
  Set : σ → GoString → JSON → σ × Error
  Delete : σ → GoString → σ × Error

/-- The store of store.go as an implementation of `storeInterface`. -/
def Store.asStoreInterface : storeInterface Node where
  Get := fun n key => (n, Store.Get n key)
  Set := Store.Set
  Delete := Store.Delete

/-- What the handler reads of an `http.Request`: the method (a token, kept
as a text), `r.URL.Path` (a Go string: the path after percent-decoding, any
bytes) and the body. -/
structure Request where
  Method : String
  Path : GoString
  Body : Bytes

/-- An `http.ResponseWriter`: the status line once it is written, and the
chunks written to the body. -/
structure ResponseWriter where
  status : Option Nat := none
  body : List Bytes := []
deriving DecidableEq

/-- The writer the server hands to the handler: nothing written yet. -/
def ResponseWriter.new : ResponseWriter := {}

/-- The method `WriteHeader`: sets the status unless one is already written
(a later call is ignored by the server). -/
def ResponseWriter.WriteHeader (w : ResponseWriter) (code : Nat) : ResponseWriter :=
  match w.status with
  | some _ => w
  | none => { w with status := some code }

/-- The call `io.WriteString(w, string(b))`: the first write sends status 200
when none was written, then the bytes go to the body. -/
def ResponseWriter.WriteString (w : ResponseWriter) (b : Bytes) : ResponseWriter :=
  { status := some (w.status.getD 200), body := w.body ++ [b] }

/-- The status the client receives: 200 when the handler returned without
writing one. -/
def ResponseWriter.code (w : ResponseWriter) : Nat := w.status.getD 200

/-- The call `strings.HasPrefix(s, p)`. -/
def HasPrefix (s p : GoString) : Bool := p.isPrefixOf s

/-- The closure `getKey`: the path split at "/" (the byte 47); the third part
when there are exactly three, the empty string otherwise. -/
def getKey (r : Request) : GoString :=
  let parts := r.Path.splitOn 47
  if parts.length ≠ 3 then [] else parts.getD 2 []

/-- What `json.Marshal(map[string]interface{}{k: v})` writes: the object
with a single member, named by the key written as JSON text (U+FFFD for its
invalid bytes). -/
def MarshalSingleton (k : GoString) (v : JSON) : Bytes :=
  Bytes.doc (JSON.object [(jsonText k, v)])

/-- The loop `for k, v := range m` of the POST case over the entries in the
order visited: each pair goes to `store.Set`; the first error answers 500 and
returns. -/
def Service.setEach {σ : Type} (store : storeInterface σ) :
    List (GoString × JSON) → σ → ResponseWriter → σ × ResponseWriter
  | [], s, w => (s, w)
  | kv :: rest, s, w =>
    match store.Set s kv.1 kv.2 with
    | (s1, some _) => (s1, w.WriteHeader 500)
    | (s1, none) => Service.setEach store rest s1 w

/-- The method `handleKeyRequest`, a switch on the method.  GET: the key is
read from the path, an empty key writes 400 (and execution goes on, there is
no return), `store.Get` is called, an error writes 500, otherwise the object
with the key and the value is written (its marshalling cannot fail).  POST:
the body is decoded into a map, an error writes 400, otherwise every pair
`range` visits is passed to `store.Set` until one fails, which writes 500.
DELETE: an empty key writes 400; otherwise `store.Delete` is called, an error
writes 500, and on success `store.Delete` is called once more with its result
dropped.  Any other method writes 405. -/
def Service.handleKeyRequest {σ : Type} (store : storeInterface σ)
    (range : GoMap → List (GoString × JSON)) (s : σ) (w : ResponseWriter) (r : Request) :
    σ × ResponseWriter :=
  if r.Method = "GET" then
    let k := getKey r
    let w1 := if k = [] then w.WriteHeader 400 else w
    match store.Get s k with
    | (s1, _, some _) => (s1, w1.WriteHeader 500)
    | (s1, v, none) => (s1, w1.WriteString (MarshalSingleton k v))
  else if r.Method = "POST" then
    match DecodeMap r.Body (some GoMap.empty) with
    | (_, some _) => (s, w.WriteHeader 400)
    | (m, none) => Service.setEach store (rangeOver range m) s w
  else if r.Method = "DELETE" then
    let k := getKey r
    if k = [] then (s, w.WriteHeader 400)
    else
      match store.Delete s k with
      | (s1, some _) => (s1, w.WriteHeader 500)
      | (s1, none) => ((store.Delete s1 k).1, w)
  else (s, w.WriteHeader 405)

/-- The method `ServeHTTP`: paths that start with "/key" go to
`handleKeyRequest`, every other path is answered 404. -/
def Service.ServeHTTP {σ : Type} (store : storeInterface σ)
    (range : GoMap → List (GoString × JSON)) (s : σ) (w : ResponseWriter) (r : Request) :
    σ × ResponseWriter :=
  if HasPrefix r.Path (GoString.lit "/key") then Service.handleKeyRequest store range s w r
  else (s, w.WriteHeader 404)

/-! ## Observation of the calls made on a store -/

/-- A call on a `storeInterface`, with its arguments. -/
inductive Call where
  | Get (key : GoString)
  | Set (key : GoString) (value : JSON)
  | Delete (key : GoString)
deriving DecidableEq

/-- The store `store` with every call made on it appended to a journal; the
results and the state of `store` are those of the call itself. -/
def recording {σ : Type} (store : storeInterface σ) : storeInterface (σ × List Call) where
  Get := fun s key => let r := store.Get s.1 key; ((r.1, s.2 ++ [Call.Get key]), r.2)
  Set := fun s key value =>
    let r := store.Set s.1 key value; ((r.1, s.2 ++ [Call.Set key value]), r.2)
  Delete := fun s key => let r := store.Delete s.1 key; ((r.1, s.2 ++ [Call.Delete key]), r.2)

/-- The key paths of the interface table: "/key" (write) and "/key/" followed
by a key without "/" (read, delete). -/
def isKeyPath (p : GoString) : Bool :=
  p = GoString.lit "/key" ||
    ((GoString.lit "/key/").isPrefixOf p && !((p.drop 5).contains 47))

/-! ## Auxiliary definitions for the statements -/

/-- The key an entry names for a command key: the key as the decoder reads
it back from its JSON text. -/
def entryKey (key : GoString) : GoString := GoString.lit (jsonText key)

/-- The node after the engine committed the set entry for `key` and `value`
submitted by a store whose map object is at address `a`. -/
def Node.committed (n : Node) (a : Nat) (key : GoString) (value : JSON) : Node :=
  { store := { n.store with raft := { n.store.raft with
      entries := n.store.raft.entries ++ [Marshal { Op := "set", Key := key, Value := value }] } },
    heap := n.heap.write a ((n.heap.maps a).set (entryKey key) value),
    halted := n.halted }

/-- The node after the engine committed, in order, the set entries for `kvs`. -/
def Node.committedAll (n : Node) (a : Nat) (kvs : List (GoString × JSON)) : Node :=
  kvs.foldl (fun n kv => n.committed a kv.1 kv.2) n

/-- The map a POST body with the members `ms` decodes into. -/
def decodedBatch (ms : List (String × JSON)) : GoMap :=
  (entriesOf ms).foldl (fun m kv => m.set kv.1 kv.2) GoMap.empty

/-- The effect on the map contents of the entry of a command whose op is
"set" or "delete". -/
def command.effect (m : GoMap) (c : command) : GoMap :=
  if c.Op = "set" then m.set (entryKey c.Key) c.Value else m.delete (entryKey c.Key)

/-! ## Example nodes -/

/-- A node that has just opened a single-node cluster: it is the leader, its
map is empty, and its engine commits every entry submitted. -/
def exampleLeader : Node :=
  Store.New { state := RaftState.Leader, verdict := fun _ => none, entries := [] }

/-- A follower with an empty map. -/
def exampleFollower : Node :=
  Store.New { state := RaftState.Follower, verdict := fun _ => none, entries := [] }

/-- A leader whose engine commits the first entry submitted and fails every
later one with "leadership lost". -/
def exampleFailingSecond : Node :=
  Store.New { state := RaftState.Leader,
              verdict := fun i => if i = 0 then none else some "leadership lost",
              entries := [] }

/-- The example leader after the entry setting "a" to 1 was applied. -/
def exampleStored : Node :=
  (fsm.Apply exampleLeader
    { Data := Marshal
        { Op := "set", Key := GoString.lit "a", Value := JSON.number { mant := 1, pow := 0 } } }).1

/-- The example leader after the entry setting the key U+FFFD to "y" was
applied. -/
def exampleReplacement : Node :=
  (fsm.Apply exampleLeader
    { Data := Marshal
        { Op := "set", Key := GoString.lit "\uFFFD", Value := JSON.string "y" } }).1

/-- A leader whose engine fails every entry submitted with "leadership lost". -/
def exampleFailingAll : Node :=
  Store.New { state := RaftState.Leader, verdict := fun _ => some "leadership lost",
              entries := [] }

/-- The store's map variable points at an allocated map object. -/
def Node.Allocated (n : Node) : Prop := ∃ a, n.store.m = some a ∧ a < n.heap.next

/-! ## Helper lemmas -/

theorem char_cases (c : Char) :
    c.toNat < 0xD800 ∨ (0xDFFF < c.toNat ∧ c.toNat < 0x110000) := by
  have h := c.valid
  simp only [UInt32.isValidChar, Nat.isValidChar] at h
  exact h

theorem decodeRune_encodeRune (c : Char) (rest : GoString) :
    decodeRune (encodeRune c ++ rest) = some (c, (encodeRune c).length) := by
  have hc := char_cases c
  have hof : Char.ofNat c.toNat = c := Char.ofNat_toNat c
  unfold encodeRune
  by_cases h1 : c.toNat < 0x80
  · simp [h1, decodeRune, hof]
  · by_cases h2 : c.toNat < 0x800
    · have a1 : ¬ (0xC0 + c.toNat / 64 < 0x80) := by omega
      have a2 : ¬ (0xC0 + c.toNat / 64 < 0xC2) := by omega
      have a3 : 0xC0 + c.toNat / 64 < 0xE0 := by omega
      have a4 : 0x80 ≤ 0x80 + c.toNat % 64 ∧ 0x80 + c.toNat % 64 ≤ 0xBF := by omega
      have e : (0xC0 + c.toNat / 64 - 0xC0) * 64 + (0x80 + c.toNat % 64 - 0x80) = c.toNat := by
        omega
      simp only [h1, h2, if_false, if_true, List.cons_append, List.nil_append, decodeRune,
        a1, a2, a3, a4, and_self, e, hof, List.length_cons, List.length_nil]
    · by_cases h3 : c.toNat < 0x10000
      · have a1 : ¬ (0xE0 + c.toNat / 4096 < 0x80) := by omega
        have a2 : ¬ (0xE0 + c.toNat / 4096 < 0xC2) := by omega
        have a3 : ¬ (0xE0 + c.toNat / 4096 < 0xE0) := by omega
        have a4 : 0xE0 + c.toNat / 4096 < 0xF0 := by omega
        have a5 : (if 0xE0 + c.toNat / 4096 = 0xE0 then 0xA0 else 0x80) ≤ 0x80 + c.toNat / 64 % 64 ∧
            0x80 + c.toNat / 64 % 64 ≤ (if 0xE0 + c.toNat / 4096 = 0xED then 0x9F else 0xBF) ∧
            0x80 ≤ 0x80 + c.toNat % 64 ∧ 0x80 + c.toNat % 64 ≤ 0xBF := by
          split_ifs <;> omega
        have e : (0xE0 + c.toNat / 4096 - 0xE0) * 4096 + (0x80 + c.toNat / 64 % 64 - 0x80) * 64
            + (0x80 + c.toNat % 64 - 0x80) = c.toNat := by omega
        simp only [h1, h2, h3, if_false, if_true, List.cons_append, List.nil_append, decodeRune,
          a1, a2, a3, a4, e, hof, List.length_cons, List.length_nil]
        rw [if_pos a5]
      · have a1 : ¬ (0xF0 + c.toNat / 262144 < 0x80) := by omega
        have a2 : ¬ (0xF0 + c.toNat / 262144 < 0xC2) := by omega
        have a3 : ¬ (0xF0 + c.toNat / 262144 < 0xE0) := by omega
        have a4 : ¬ (0xF0 + c.toNat / 262144 < 0xF0) := by omega
        have a5 : 0xF0 + c.toNat / 262144 < 0xF5 := by omega
        have a6 : (if 0xF0 + c.toNat / 262144 = 0xF0 then 0x90 else 0x80)
              ≤ 0x80 + c.toNat / 4096 % 64 ∧
            0x80 + c.toNat / 4096 % 64
              ≤ (if 0xF0 + c.toNat / 262144 = 0xF4 then 0x8F else 0xBF) ∧
            0x80 ≤ 0x80 + c.toNat / 64 % 64 ∧ 0x80 + c.toNat / 64 % 64 ≤ 0xBF ∧
            0x80 ≤ 0x80 + c.toNat % 64 ∧ 0x80 + c.toNat % 64 ≤ 0xBF := by
          split_ifs <;> omega
        have e : (0xF0 + c.toNat / 262144 - 0xF0) * 262144
            + (0x80 + c.toNat / 4096 % 64 - 0x80) * 4096
            + (0x80 + c.toNat / 64 % 64 - 0x80) * 64 + (0x80 + c.toNat % 64 - 0x80)
            = c.toNat := by omega
        simp only [h1, h2, h3, if_false, List.cons_append, List.nil_append, decodeRune,
          a1, a2, a3, a4, a5, if_true, e, hof, List.length_cons, List.length_nil]
        rw [if_pos a6]

theorem encodeRune_ne_nil (c : Char) : encodeRune c ≠ [] := by
  unfold encodeRune
  split_ifs <;> simp

theorem jsonRunes_skip (bs rest : GoString) :
    jsonRunes bs.length (bs ++ rest) = jsonRunes 0 rest := by
  induction bs with
  | nil => rfl
  | cons b bs ih => simpa [jsonRunes] using ih

theorem jsonRunes_encodeRune (c : Char) (rest : GoString) :
    jsonRunes 0 (encodeRune c ++ rest) = c :: jsonRunes 0 rest := by
  have hd := decodeRune_encodeRune c rest
  rcases he : encodeRune c with _ | ⟨b, bs⟩
  · exact absurd he (encodeRune_ne_nil c)
  · rw [he] at hd
    have hd2 : decodeRune (b :: (bs ++ rest)) = some (c, bs.length + 1) := hd
    show jsonRunes 0 (b :: (bs ++ rest)) = c :: jsonRunes 0 rest
    rw [jsonRunes, hd2]
    exact congrArg _ (jsonRunes_skip bs rest)

theorem jsonText_lit (s : String) : jsonText (GoString.lit s) = s := by
  have h : ∀ cs : List Char, jsonRunes 0 (encodeRunes cs) = cs := by
    intro cs
    induction cs with
    | nil => rfl
    | cons c cs ih => rw [encodeRunes, jsonRunes_encodeRune, ih]
  simp [jsonText, GoString.lit, h]

theorem entryKey_lit (s : String) : entryKey (GoString.lit s) = GoString.lit s := by
  simp [entryKey, jsonText_lit]

theorem entryKey_nil : entryKey [] = [] := by decide

theorem lookupField_op : lookupField "op" = some Field.op := by decide
theorem lookupField_key : lookupField "key" = some Field.key := by decide
theorem lookupField_value : lookupField "value" = some Field.value := by decide

/-- Decoding the encoding of a command into the zero command gives the
command back, whatever fields `omitempty` left out, with the key as its JSON
text reads. -/
theorem Unmarshal_Marshal (c : command) :
    Unmarshal (Marshal c) {} = ({ c with Key := entryKey c.Key }, none) := by
  obtain ⟨op, key, value⟩ := c
  by_cases h1 : op = "" <;> by_cases h2 : key = [] <;> by_cases h3 : value = JSON.null <;>
    simp [Unmarshal, Marshal, h1, h2, h3, decodeMember, decodeString, lookupField_op,
      lookupField_key, lookupField_value, entryKey, entryKey_nil] <;>
    exact entryKey_nil.symm

theorem Apply_set_entry (n : Node) (k : GoString) (v : JSON) :
    fsm.Apply n { Data := Marshal { Op := "set", Key := k, Value := v } }
      = fsm.applySet n (entryKey k) v := by
  simp [fsm.Apply, Unmarshal_Marshal]

theorem Apply_delete_entry (n : Node) (k : GoString) :
    fsm.Apply n { Data := Marshal { Op := "delete", Key := k } }
      = fsm.applyDelete n (entryKey k) := by
  simp [fsm.Apply, Unmarshal_Marshal]

theorem toNat_ofNat_of_valid (v : Nat) (h : v < 0xD800 ∨ (0xDFFF < v ∧ v < 0x110000)) :
    (Char.ofNat v).toNat = v := by
  have hv : v.isValidChar := h
  simp only [Char.ofNat, hv, dif_pos]
  have hlt : v < UInt32.size := by
    have : v < 0x110000 := by omega
    exact Nat.lt_trans this (by decide)
  simp [Char.toNat, Char.ofNatAux, UInt32.toNat, Nat.mod_eq_of_lt hlt]

theorem encodeRune_ofNat2 (s0 s1 : Nat) (a : 0xC2 ≤ s0 ∧ s0 < 0xE0)
    (g : 0x80 ≤ s1 ∧ s1 ≤ 0xBF) :
    encodeRune (Char.ofNat ((s0 - 0xC0) * 64 + (s1 - 0x80))) = [s0, s1] := by
  have hn := toNat_ofNat_of_valid ((s0 - 0xC0) * 64 + (s1 - 0x80)) (by omega)
  have e1 : ¬ ((s0 - 0xC0) * 64 + (s1 - 0x80) < 0x80) := by omega
  have e2 : (s0 - 0xC0) * 64 + (s1 - 0x80) < 0x800 := by omega
  have e3 : 0xC0 + ((s0 - 0xC0) * 64 + (s1 - 0x80)) / 64 = s0 := by omega
  have e4 : 0x80 + ((s0 - 0xC0) * 64 + (s1 - 0x80)) % 64 = s1 := by omega
  simp only [encodeRune, hn, e1, e2, if_false, if_true, e3, e4]

theorem encodeRune_ofNat3 (s0 s1 s2 : Nat) (a : 0xE0 ≤ s0 ∧ s0 < 0xF0)
    (g : (if s0 = 0xE0 then 0xA0 else 0x80) ≤ s1 ∧ s1 ≤ (if s0 = 0xED then 0x9F else 0xBF) ∧
      0x80 ≤ s2 ∧ s2 ≤ 0xBF) :
    encodeRune (Char.ofNat ((s0 - 0xE0) * 4096 + (s1 - 0x80) * 64 + (s2 - 0x80)))
      = [s0, s1, s2] := by
  have b : (s0 = 0xE0 → 0xA0 ≤ s1) ∧ (s0 = 0xED → s1 ≤ 0x9F) ∧ 0x80 ≤ s1 ∧ s1 ≤ 0xBF ∧
      0x80 ≤ s2 ∧ s2 ≤ 0xBF := by
    split_ifs at g <;> omega
  have hn := toNat_ofNat_of_valid
    ((s0 - 0xE0) * 4096 + (s1 - 0x80) * 64 + (s2 - 0x80)) (by omega)
  have e1 : ¬ ((s0 - 0xE0) * 4096 + (s1 - 0x80) * 64 + (s2 - 0x80) < 0x80) := by omega
  have e2 : ¬ ((s0 - 0xE0) * 4096 + (s1 - 0x80) * 64 + (s2 - 0x80) < 0x800) := by omega
  have e3 : (s0 - 0xE0) * 4096 + (s1 - 0x80) * 64 + (s2 - 0x80) < 0x10000 := by omega
  have e4 : 0xE0 + ((s0 - 0xE0) * 4096 + (s1 - 0x80) * 64 + (s2 - 0x80)) / 4096 = s0 := by
    omega
  have e5 : 0x80 + ((s0 - 0xE0) * 4096 + (s1 - 0x80) * 64 + (s2 - 0x80)) / 64 % 64
      = s1 := by omega
  have e6 : 0x80 + ((s0 - 0xE0) * 4096 + (s1 - 0x80) * 64 + (s2 - 0x80)) % 64 = s2 := by
    omega
  simp only [encodeRune, hn, e1, e2, e3, if_false, if_true, e4, e5, e6]

theorem encodeRune_ofNat4 (s0 s1 s2 s3 : Nat) (a : 0xF0 ≤ s0 ∧ s0 < 0xF5)
    (g : (if s0 = 0xF0 then 0x90 else 0x80) ≤ s1 ∧ s1 ≤ (if s0 = 0xF4 then 0x8F else 0xBF) ∧
      0x80 ≤ s2 ∧ s2 ≤ 0xBF ∧ 0x80 ≤ s3 ∧ s3 ≤ 0xBF) :
    encodeRune (Char.ofNat
        ((s0 - 0xF0) * 262144 + (s1 - 0x80) * 4096 + (s2 - 0x80) * 64 + (s3 - 0x80)))
      = [s0, s1, s2, s3] := by
  have b : (s0 = 0xF0 → 0x90 ≤ s1) ∧ (s0 = 0xF4 → s1 ≤ 0x8F) ∧ 0x80 ≤ s1 ∧ s1 ≤ 0xBF ∧
      0x80 ≤ s2 ∧ s2 ≤ 0xBF ∧ 0x80 ≤ s3 ∧ s3 ≤ 0xBF := by
    split_ifs at g <;> omega
  have hn := toNat_ofNat_of_valid
    ((s0 - 0xF0) * 262144 + (s1 - 0x80) * 4096 + (s2 - 0x80) * 64 + (s3 - 0x80)) (by omega)
  have e1 : ¬ ((s0 - 0xF0) * 262144 + (s1 - 0x80) * 4096 + (s2 - 0x80) * 64
      + (s3 - 0x80) < 0x80) := by omega
  have e2 : ¬ ((s0 - 0xF0) * 262144 + (s1 - 0x80) * 4096 + (s2 - 0x80) * 64
      + (s3 - 0x80) < 0x800) := by omega
  have e3 : ¬ ((s0 - 0xF0) * 262144 + (s1 - 0x80) * 4096 + (s2 - 0x80) * 64
      + (s3 - 0x80) < 0x10000) := by omega
  have e4 : 0xF0 + ((s0 - 0xF0) * 262144 + (s1 - 0x80) * 4096 + (s2 - 0x80) * 64
      + (s3 - 0x80)) / 262144 = s0 := by omega
  have e5 : 0x80 + ((s0 - 0xF0) * 262144 + (s1 - 0x80) * 4096 + (s2 - 0x80) * 64
      + (s3 - 0x80)) / 4096 % 64 = s1 := by omega
  have e6 : 0x80 + ((s0 - 0xF0) * 262144 + (s1 - 0x80) * 4096 + (s2 - 0x80) * 64
      + (s3 - 0x80)) / 64 % 64 = s2 := by omega
  have e7 : 0x80 + ((s0 - 0xF0) * 262144 + (s1 - 0x80) * 4096 + (s2 - 0x80) * 64
      + (s3 - 0x80)) % 64 = s3 := by omega
  simp only [encodeRune, hn, e1, e2, e3, if_false, e4, e5, e6, e7]

theorem encodeRune_of_decodeRune (bs : GoString) (c : Char) (size : Nat)
    (h : decodeRune bs = some (c, size)) :
    1 ≤ size ∧ encodeRune c = bs.take size := by
  cases bs with
  | nil => simp [decodeRune] at h
  | cons s0 rest =>
    simp only [decodeRune] at h
    by_cases h1 : s0 < 0x80
    · rw [if_pos h1] at h
      simp only [Option.some.injEq, Prod.mk.injEq] at h
      obtain ⟨rfl, rfl⟩ := h
      have hn := toNat_ofNat_of_valid s0 (by omega)
      simp [encodeRune, hn, h1]
    rw [if_neg h1] at h
    by_cases h2 : s0 < 0xC2
    · rw [if_pos h2] at h; cases h
    rw [if_neg h2] at h
    by_cases h3 : s0 < 0xE0
    · rw [if_pos h3] at h
      cases rest with
      | nil => cases h
      | cons s1 r1 =>
        simp only at h
        by_cases g : 0x80 ≤ s1 ∧ s1 ≤ 0xBF
        · rw [if_pos g] at h
          simp only [Option.some.injEq, Prod.mk.injEq] at h
          obtain ⟨rfl, rfl⟩ := h
          rw [encodeRune_ofNat2 s0 s1 (by omega) g]
          simp
        · rw [if_neg g] at h; cases h
    rw [if_neg h3] at h
    by_cases h4 : s0 < 0xF0
    · rw [if_pos h4] at h
      match rest, h with
      | [], h => cases h
      | [_], h => cases h
      | s1 :: s2 :: r2, h =>
        simp only at h
        by_cases g : (if s0 = 0xE0 then 0xA0 else 0x80) ≤ s1 ∧
            s1 ≤ (if s0 = 0xED then 0x9F else 0xBF) ∧ 0x80 ≤ s2 ∧ s2 ≤ 0xBF
        · rw [if_pos g] at h
          simp only [Option.some.injEq, Prod.mk.injEq] at h
          obtain ⟨rfl, rfl⟩ := h
          rw [encodeRune_ofNat3 s0 s1 s2 (by omega) g]
          simp
        · rw [if_neg g] at h; cases h
    rw [if_neg h4] at h
    by_cases h5 : s0 < 0xF5
    · rw [if_pos h5] at h
      match rest, h with
      | [], h => cases h
      | [_], h => cases h
      | [_, _], h => cases h
      | s1 :: s2 :: s3 :: r3, h =>
        simp only at h
        by_cases g : (if s0 = 0xF0 then 0x90 else 0x80) ≤ s1 ∧
            s1 ≤ (if s0 = 0xF4 then 0x8F else 0xBF) ∧ 0x80 ≤ s2 ∧ s2 ≤ 0xBF ∧
            0x80 ≤ s3 ∧ s3 ≤ 0xBF
        · rw [if_pos g] at h
          simp only [Option.some.injEq, Prod.mk.injEq] at h
          obtain ⟨rfl, rfl⟩ := h
          rw [encodeRune_ofNat4 s0 s1 s2 s3 (by omega) g]
          simp
        · rw [if_neg g] at h; cases h
    rw [if_neg h5] at h
    cases h

theorem encodeRunes_jsonRunes (bs : GoString) :
    ∀ skip : Nat, validRunes skip bs = true → encodeRunes (jsonRunes skip bs) = bs.drop skip := by
  induction bs with
  | nil => intro skip _; simp [jsonRunes, encodeRunes]
  | cons b bs ih =>
    intro skip h
    cases skip with
    | succ skip =>
      simp only [validRunes] at h
      simpa [jsonRunes] using ih skip h
    | zero =>
      rw [validRunes] at h
      rw [jsonRunes]
      rcases hd : decodeRune (b :: bs) with _ | ⟨c, size⟩
      · rw [hd] at h; cases h
      · rw [hd] at h
        simp only at h
        obtain ⟨h1, h2⟩ := encodeRune_of_decodeRune _ _ _ hd
        simp only [encodeRunes, ih _ h, h2, List.drop_zero]
        obtain ⟨m, rfl⟩ : ∃ m, size = m + 1 := ⟨size - 1, by omega⟩
        simp

/-- A valid UTF-8 key is read back unchanged from its JSON text. -/
theorem entryKey_of_valid (k : GoString) (h : ValidString k = true) : entryKey k = k := by
  have := encodeRunes_jsonRunes k 0 h
  simpa [entryKey, GoString.lit, jsonText] using this

/-- The Go string of a text is valid UTF-8. -/
theorem ValidString_lit (s : String) : ValidString (GoString.lit s) = true := by
  have hskip : ∀ (bs rest : GoString), validRunes bs.length (bs ++ rest) = validRunes 0 rest := by
    intro bs rest
    induction bs with
    | nil => rfl
    | cons b bs ih => simpa [validRunes] using ih
  have h : ∀ cs : List Char, validRunes 0 (encodeRunes cs) = true := by
    intro cs
    induction cs with
    | nil => rfl
    | cons c cs ih =>
      have hd := decodeRune_encodeRune c (encodeRunes cs)
      rcases he : encodeRune c with _ | ⟨b, bs⟩
      · exact absurd he (encodeRune_ne_nil c)
      · rw [he] at hd
        have hd2 : decodeRune (b :: (bs ++ encodeRunes cs)) = some (c, bs.length + 1) := hd
        show validRunes 0 (encodeRune c ++ encodeRunes cs) = true
        rw [he]
        show validRunes 0 (b :: (bs ++ encodeRunes cs)) = true
        rw [validRunes, hd2]
        simp only [Nat.add_sub_cancel]
        rw [hskip, ih]
  exact h s.data

theorem applySet_of_some (n : Node) (a : Nat) (hm : n.store.m = some a) (k : GoString) (v : JSON) :
    fsm.applySet n k v =
      ({ n with heap := n.heap.write a ((n.heap.maps a).set k v) }, Outcome.returned JSON.null) := by
  simp [fsm.applySet, hm]

theorem content_write (n : Node) (a : Nat) (hm : n.store.m = some a) (c : GoMap) :
    ({ n with heap := n.heap.write a c } : Node).content = c := by
  simp [Node.content, hm, Heap.write]

theorem content_of_some (n : Node) (a : Nat) (hm : n.store.m = some a) :
    n.content = n.heap.maps a := by
  simp [Node.content, hm]

theorem applyDelete_of_some (n : Node) (a : Nat) (hm : n.store.m = some a) (k : GoString) :
    fsm.applyDelete n k =
      ({ n with heap := n.heap.write a ((n.heap.maps a).delete k) }, Outcome.returned JSON.null) := by
  simp [fsm.applyDelete, hm]

theorem applyDelete_of_none (n : Node) (hm : n.store.m = none) (k : GoString) :
    fsm.applyDelete n k = (n, Outcome.returned JSON.null) := by
  simp [fsm.applyDelete, hm]

theorem applyDelete_returned (n : Node) (k : GoString) :
    (fsm.applyDelete n k).2 = Outcome.returned JSON.null := by
  unfold fsm.applyDelete; split <;> rfl

theorem applyDelete_content (n : Node) (k : GoString) :
    (fsm.applyDelete n k).1.content = n.content.delete k := by
  cases hm : n.store.m with
  | none =>
    rw [applyDelete_of_none n hm]
    funext k2
    simp [Node.content, hm, GoMap.delete, GoMap.empty]
  | some a =>
    rw [applyDelete_of_some n a hm]
    simp [content_write n a hm, content_of_some n a hm]

theorem GoMap.delete_absent (m : GoMap) (k : GoString) (h : m k = none) : m.delete k = m := by
  funext k2
  by_cases hk : k2 = k <;> simp [GoMap.delete, hk, h]

theorem applyDelete_absent (n : Node) (k : GoString) (h : n.content k = none) :
    (fsm.applyDelete n k).1 = n := by
  cases hm : n.store.m with
  | none => rw [applyDelete_of_none n hm]
  | some a =>
    rw [applyDelete_of_some n a hm]
    rw [content_of_some n a hm] at h
    simp [GoMap.delete_absent _ k h, Heap.write]

theorem lit_key : GoString.lit "/key" = [47, 107, 101, 121] := by decide

theorem lit_key_slash : GoString.lit "/key/" = [47, 107, 101, 121, 47] := by decide

theorem splitOn_key_path (k : GoString) (hk : 47 ∉ k) :
    (47 :: 107 :: 101 :: 121 :: 47 :: k).splitOn 47 = [[], [107, 101, 121], k] := by
  have h := List.splitOn_intercalate [[], [107, 101, 121], k] 47
    (by
      intro l hl
      simp only [List.mem_cons, List.mem_singleton, List.not_mem_nil, or_false] at hl
      rcases hl with rfl | rfl | rfl
      · simp
      · decide
      · exact hk)
    (by simp)
  simpa [List.intercalate, List.intersperse] using h

theorem getKey_key_path (method : String) (k : GoString) (b : Bytes) (hk : 47 ∉ k) :
    getKey { Method := method, Path := GoString.lit "/key/" ++ k, Body := b } = k := by
  simp [getKey, lit_key_slash, splitOn_key_path k hk]

theorem HasPrefix_key_path (k : GoString) :
    HasPrefix (GoString.lit "/key/" ++ k) (GoString.lit "/key") = true := by
  simp [HasPrefix, lit_key_slash, lit_key]

theorem Set_commit (n : Node) (a : Nat) (hm : n.store.m = some a)
    (hl : n.store.raft.state = RaftState.Leader)
    (hv : n.store.raft.verdict n.store.raft.entries.length = none) (k : GoString) (v : JSON) :
    Store.Set n k v = (n.committed a k v, none) := by
  simp [Store.Set, hl, Raft.Apply, hv, Apply_set_entry, fsm.applySet, hm, Node.committed]

theorem Set_fail (n : Node) (hl : n.store.raft.state = RaftState.Leader) (e : String)
    (hv : n.store.raft.verdict n.store.raft.entries.length = some e) (k : GoString) (v : JSON) :
    Store.Set n k v =
      ({ n with store := { n.store with raft := { n.store.raft with
          entries := n.store.raft.entries ++ [Marshal { Op := "set", Key := k, Value := v }] } } },
        some e) := by
  simp [Store.Set, hl, Raft.Apply, hv]

theorem committedAll_nil (n : Node) (a : Nat) : n.committedAll a [] = n := rfl

theorem committedAll_cons (n : Node) (a : Nat) (kv : GoString × JSON) (kvs : List (GoString × JSON)) :
    n.committedAll a (kv :: kvs) = (n.committed a kv.1 kv.2).committedAll a kvs := rfl

theorem committedAll_spec (a : Nat) (kvs : List (GoString × JSON)) :
    ∀ n : Node, n.store.m = some a →
      (n.committedAll a kvs).store.m = some a ∧
      (n.committedAll a kvs).store.raft.state = n.store.raft.state ∧
      (n.committedAll a kvs).store.raft.verdict = n.store.raft.verdict ∧
      (n.committedAll a kvs).store.raft.entries = n.store.raft.entries ++
        kvs.map (fun kv => Marshal { Op := "set", Key := kv.1, Value := kv.2 }) ∧
      (n.committedAll a kvs).content
        = kvs.foldl (fun m kv => m.set (entryKey kv.1) kv.2) n.content ∧
      (n.committedAll a kvs).halted = n.halted := by
  induction kvs with
  | nil => intro n hm; simp [committedAll_nil, hm]
  | cons kv kvs ih =>
    intro n hm
    have hm2 : (n.committed a kv.1 kv.2).store.m = some a := by simp [Node.committed, hm]
    obtain ⟨h1, h2, h3, h4, h5, h6⟩ := ih (n.committed a kv.1 kv.2) hm2
    rw [committedAll_cons]
    refine ⟨h1, ?_, ?_, ?_, ?_, ?_⟩
    · rw [h2]; rfl
    · rw [h3]; rfl
    · rw [h4]; simp [Node.committed]
    · rw [h5]
      simp [Node.committed, Node.content, hm, Heap.write]
    · rw [h6]; rfl

theorem setEach_committed (a : Nat) (rest : List (GoString × JSON)) (w : ResponseWriter)
    (pre : List (GoString × JSON)) :
    ∀ n : Node, n.store.m = some a → n.store.raft.state = RaftState.Leader →
      (∀ i, i < pre.length → n.store.raft.verdict (n.store.raft.entries.length + i) = none) →
      Service.setEach Store.asStoreInterface (pre ++ rest) n w
        = Service.setEach Store.asStoreInterface rest (n.committedAll a pre) w := by
  induction pre with
  | nil => intro n _ _ _; rfl
  | cons kv pre ih =>
    intro n hm hl hv
    have h0 := hv 0 (by simp)
    simp only [Nat.add_zero] at h0
    have hm2 : (n.committed a kv.1 kv.2).store.m = some a := by simp [Node.committed, hm]
    have hl2 : (n.committed a kv.1 kv.2).store.raft.state = RaftState.Leader := by
      simpa [Node.committed] using hl
    have hv2 : ∀ i, i < pre.length →
        (n.committed a kv.1 kv.2).store.raft.verdict
          ((n.committed a kv.1 kv.2).store.raft.entries.length + i) = none := by
      intro i hi
      have := hv (i + 1) (by simp; omega)
      simpa [Node.committed, Nat.add_assoc, Nat.add_comm 1 i] using this
    rw [committedAll_cons, ← ih _ hm2 hl2 hv2]
    simp [Service.setEach, Store.asStoreInterface, Set_commit n a hm hl h0]

theorem foldl_set_of_not_mem (l : List (GoString × JSON)) (key : GoString) :
    ∀ m : GoMap, key ∉ l.map Prod.fst →
      (l.foldl (fun m kv => m.set kv.1 kv.2) m) key = m key := by
  induction l with
  | nil => intro m _; rfl
  | cons p t ih =>
    intro m h
    simp only [List.map_cons, List.mem_cons, not_or] at h
    simp only [List.foldl_cons]
    rw [ih _ h.2]
    simp [GoMap.set, h.1]

theorem foldl_set_of_mem (l : List (GoString × JSON)) (key : GoString) (v : JSON) :
    ∀ m : GoMap, (l.map Prod.fst).Nodup → (key, v) ∈ l →
      (l.foldl (fun m kv => m.set kv.1 kv.2) m) key = some v := by
  induction l with
  | nil => intro m _ h; simp at h
  | cons p t ih =>
    intro m hn h
    simp only [List.map_cons, List.nodup_cons] at hn
    simp only [List.foldl_cons]
    rcases List.mem_cons.mp h with h | h
    · subst h
      rw [foldl_set_of_not_mem _ _ _ hn.1]
      simp [GoMap.set]
    · exact ih _ hn.2 h

theorem foldl_set_of_Enumerates (c : GoMap) (l : List (GoString × JSON))
    (h : GoMap.Enumerates c l) :
    l.foldl (fun m kv => m.set kv.1 kv.2) GoMap.empty = c := by
  funext key
  cases hc : c key with
  | none =>
    rw [foldl_set_of_not_mem]
    · rfl
    · intro hmem
      obtain ⟨p, hp, hk⟩ := List.mem_map.mp hmem
      have := (h.2 p.1 p.2).mp hp
      rw [hk, hc] at this
      cases this
  | some v => exact foldl_set_of_mem l key v _ h.1 ((h.2 key v).mpr hc)

theorem Apply_frame (n : Node) (l : Log) :
    (fsm.Apply n l).1.store = n.store ∧
    (fsm.Apply n l).1.heap.next = n.heap.next ∧
    (fsm.Apply n l).1.halted = n.halted ∧
    ∀ b, n.store.m ≠ some b → (fsm.Apply n l).1.heap.maps b = n.heap.maps b := by
  unfold fsm.Apply
  split
  · exact ⟨rfl, rfl, rfl, fun _ _ => rfl⟩
  · split
    · unfold fsm.applySet
      split
      · rename_i a hm
        refine ⟨rfl, rfl, rfl, ?_⟩
        intro b hb
        have : b ≠ a := fun h => hb (by rw [hm, h])
        simp [Heap.write, Function.update, this]
      · exact ⟨rfl, rfl, rfl, fun _ _ => rfl⟩
    · split
      · unfold fsm.applyDelete
        split
        · rename_i a hm
          refine ⟨rfl, rfl, rfl, ?_⟩
          intro b hb
          have : b ≠ a := fun h => hb (by rw [hm, h])
          simp [Heap.write, Function.update, this]
        · exact ⟨rfl, rfl, rfl, fun _ _ => rfl⟩
      · exact ⟨rfl, rfl, rfl, fun _ _ => rfl⟩

theorem Apply_command (n : Node) (a : Nat) (hm : n.store.m = some a) (c : command)
    (hc : c.Op = "set" ∨ c.Op = "delete") :
    (fsm.Apply n { Data := Marshal c }).2 = Outcome.returned JSON.null ∧
    (fsm.Apply n { Data := Marshal c }).1.content = command.effect n.content c := by
  have hd : ¬ ("delete" = "set") := by decide
  rcases hc with h | h
  · simp [fsm.Apply, Unmarshal_Marshal, h, applySet_of_some n a hm, command.effect,
      content_write n a hm, content_of_some n a hm]
  · simp [fsm.Apply, Unmarshal_Marshal, h, hd, applyDelete_of_some n a hm, command.effect,
      content_write n a hm, content_of_some n a hm]

theorem applyAll_commands (a : Nat) (cs : List command)
    (hcs : ∀ c, c ∈ cs → c.Op = "set" ∨ c.Op = "delete") :
    ∀ n : Node, n.store.m = some a →
      (fsm.applyAll n (cs.map fun c => { Data := Marshal c })).store = n.store ∧
      (fsm.applyAll n (cs.map fun c => { Data := Marshal c })).heap.next = n.heap.next ∧
      (fsm.applyAll n (cs.map fun c => { Data := Marshal c })).halted = n.halted ∧
      (fsm.applyAll n (cs.map fun c => { Data := Marshal c })).content
        = cs.foldl command.effect n.content ∧
      ∀ b, b ≠ a →
        (fsm.applyAll n (cs.map fun c => { Data := Marshal c })).heap.maps b = n.heap.maps b := by
  induction cs with
  | nil => intro n _; exact ⟨rfl, rfl, rfl, rfl, fun _ _ => rfl⟩
  | cons c cs ih =>
    intro n hm
    have hc := hcs c (List.mem_cons_self _ _)
    obtain ⟨f1, f2, f3, f4⟩ := Apply_frame n { Data := Marshal c }
    obtain ⟨r1, r2⟩ := Apply_command n a hm c hc
    have hm2 : (fsm.Apply n { Data := Marshal c }).1.store.m = some a := by rw [f1, hm]
    obtain ⟨i1, i2, i3, i4, i5⟩ :=
      ih (fun c2 h2 => hcs c2 (List.mem_cons_of_mem _ h2)) _ hm2
    have hstep : fsm.applyAll n ((c :: cs).map fun c => { Data := Marshal c })
        = fsm.applyAll (fsm.Apply n { Data := Marshal c }).1
            (cs.map fun c => { Data := Marshal c }) := by
      simp only [List.map_cons, fsm.applyAll]
      rcases hA : fsm.Apply n { Data := Marshal c } with ⟨n1, out⟩
      rw [hA] at r1
      simp only at r1
      subst r1
      rfl
    rw [hstep]
    refine ⟨i1.trans f1, i2.trans f2, i3.trans f3, ?_, ?_⟩
    · rw [i4, r2]; rfl
    · intro b hb
      rw [i5 b hb]
      exact f4 b (by rw [hm]; intro h; exact hb (Option.some.inj h).symm)

theorem foldl_write_spec (o : Nat) (l : List (GoString × JSON)) :
    ∀ h : Heap,
      (l.foldl (fun h kv => h.write o ((h.maps o).set kv.1 kv.2)) h).next = h.next ∧
      (l.foldl (fun h kv => h.write o ((h.maps o).set kv.1 kv.2)) h).maps o
        = l.foldl (fun m kv => m.set kv.1 kv.2) (h.maps o) ∧
      ∀ b, b ≠ o →
        (l.foldl (fun h kv => h.write o ((h.maps o).set kv.1 kv.2)) h).maps b = h.maps b := by
  induction l with
  | nil => intro h; exact ⟨rfl, rfl, fun _ _ => rfl⟩
  | cons p t ih =>
    intro h
    obtain ⟨i1, i2, i3⟩ := ih (h.write o ((h.maps o).set p.1 p.2))
    simp only [List.foldl_cons]
    refine ⟨i1, ?_, ?_⟩
    · rw [i2]; simp [Heap.write]
    · intro b hb
      rw [i3 b hb]
      simp [Heap.write, Function.update, hb]

theorem Snapshot_spec (range : GoMap → List (GoString × JSON)) (n : Node) (a : Nat)
    (hm : n.store.m = some a) (ha : a < n.heap.next)
    (hr : GoMap.Enumerates n.content (range n.content)) :
    (fsm.Snapshot range n).2.1.store = n.heap.next ∧
    (fsm.Snapshot range n).2.2 = none ∧
    (fsm.Snapshot range n).1.store = n.store ∧
    (fsm.Snapshot range n).1.halted = n.halted ∧
    (fsm.Snapshot range n).1.heap.next = n.heap.next + 1 ∧
    (fsm.Snapshot range n).1.heap.maps n.heap.next = n.content ∧
    (fsm.Snapshot range n).1.heap.maps a = n.content := by
  have hne : a ≠ n.heap.next := Nat.ne_of_lt ha
  rw [content_of_some n a hm] at hr
  obtain ⟨f1, f2, f3⟩ := foldl_write_spec n.heap.next (range (n.heap.maps a)) n.heap.make.2
  refine ⟨rfl, rfl, rfl, rfl, ?_, ?_, ?_⟩
  · simp only [fsm.Snapshot, hm, Option.map_some', rangeOver]
    simpa [Heap.make] using f1
  · simp only [fsm.Snapshot, hm, Option.map_some', rangeOver]
    rw [content_of_some n a hm]
    simp only [Heap.make] at f2 ⊢
    rw [f2]
    simpa using foldl_set_of_Enumerates _ _ hr
  · simp only [fsm.Snapshot, hm, Option.map_some', rangeOver]
    rw [content_of_some n a hm]
    simp only [Heap.make] at f3 ⊢
    rw [f3 a hne]
    simp [Function.update, hne]

theorem Restore_object (n : Node) (ms : List (String × JSON)) :
    (fsm.Restore n (Bytes.doc (JSON.object ms))).2 = none ∧
    (fsm.Restore n (Bytes.doc (JSON.object ms))).1.content
      = (entriesOf ms).foldl (fun m kv => m.set kv.1 kv.2) GoMap.empty ∧
    (fsm.Restore n (Bytes.doc (JSON.object ms))).1.store.m = some n.heap.next := by
  simp [fsm.Restore, Heap.make, DecodeMap, Bytes.first, Node.content, Heap.write]

theorem foldl_set_some (l : List (GoString × JSON)) (key : GoString) (v : JSON) :
    ∀ m : GoMap, (l.foldl (fun m kv => m.set kv.1 kv.2) m) key = some v →
      (key, v) ∈ l ∨ m key = some v := by
  induction l with
  | nil => intro m h; exact Or.inr h
  | cons p t ih =>
    intro m h
    simp only [List.foldl_cons] at h
    rcases ih _ h with h1 | h1
    · exact Or.inl (List.mem_cons_of_mem _ h1)
    · by_cases hk : key = p.1
      · simp only [GoMap.set, hk, if_true, Option.some.injEq] at h1
        left
        rw [hk, ← h1]
        exact List.mem_cons_self _ _
      · simp only [GoMap.set, hk, if_false] at h1
        exact Or.inr h1

/-- A body whose members have distinct names lists the entries of the map it
decodes into: the order of the text is one of the orders `range` may take. -/
theorem Enumerates_decodedBatch (ms : List (String × JSON))
    (h : ((entriesOf ms).map Prod.fst).Nodup) :
    GoMap.Enumerates (decodedBatch ms) (entriesOf ms) := by
  refine ⟨h, fun k v => ⟨fun hmem => foldl_set_of_mem (entriesOf ms) k v _ h hmem,
    fun hv => ?_⟩⟩
  rcases foldl_set_some (entriesOf ms) k v _ hv with h1 | h1
  · exact h1
  · simp [GoMap.empty] at h1

theorem Enumerates_singleton (c : GoMap) (l : List (GoString × JSON)) (k : GoString) (v : JSON)
    (hc : c = GoMap.empty.set k v) (h : GoMap.Enumerates c l) : l = [(k, v)] := by
  subst hc
  have hall : ∀ p, p ∈ l → p = (k, v) := by
    intro p hp
    have := (h.2 p.1 p.2).mp hp
    by_cases hk : p.1 = k
    · simp only [GoMap.set, hk, if_true, Option.some.injEq] at this
      exact Prod.ext hk this.symm
    · simp [GoMap.set, hk, GoMap.empty] at this
  have hmem : (k, v) ∈ l := (h.2 k v).mpr (by simp [GoMap.set])
  match l, h.1, hall, hmem with
  | [], _, _, hmem => simp at hmem
  | [p], _, hall, _ => rw [hall p (List.mem_singleton_self p)]
  | p :: q :: t, hnd, hall, _ =>
    have hp := hall p (List.mem_cons_self _ _)
    have hq := hall q (List.mem_cons_of_mem _ (List.mem_cons_self _ _))
    subst hp
    subst hq
    simp at hnd

theorem GET_key_path (n : Node) (range : GoMap → List (GoString × JSON))
    (k : GoString) (b : Bytes) (hne : k ≠ []) (hk : 47 ∉ k) :
    Service.ServeHTTP Store.asStoreInterface range n ResponseWriter.new
        { Method := "GET", Path := GoString.lit "/key/" ++ k, Body := b }
      = (n, { status := some 200,
              body := [Bytes.doc (JSON.object [(jsonText k, n.content.index k)])] }) := by
  simp [Service.ServeHTTP, HasPrefix_key_path, Service.handleKeyRequest, getKey_key_path _ k b hk,
    hne, Store.asStoreInterface, Store.Get, ResponseWriter.new, ResponseWriter.WriteString,
    MarshalSingleton]

theorem valid_of_decodedBatch (ms : List (String × JSON)) (k : GoString) (v : JSON)
    (h : decodedBatch ms k = some v) : entryKey k = k := by
  rcases foldl_set_some (entriesOf ms) k v _ h with h1 | h1
  · obtain ⟨p, _, hp⟩ := List.mem_map.mp h1
    have hk : k = GoString.lit p.1 := (congrArg Prod.fst hp).symm
    rw [hk, entryKey_lit]
  · simp [GoMap.empty] at h1

theorem foldl_set_entryKey (l : List (GoString × JSON))
    (hv : ∀ kv, kv ∈ l → entryKey kv.1 = kv.1) :
    ∀ m : GoMap, l.foldl (fun m kv => m.set (entryKey kv.1) kv.2) m
      = l.foldl (fun m kv => m.set kv.1 kv.2) m := by
  induction l with
  | nil => intro m; rfl
  | cons p t ih =>
    intro m
    simp only [List.foldl_cons]
    rw [hv p (List.mem_cons_self _ _)]
    exact ih (fun kv hkv => hv kv (List.mem_cons_of_mem _ hkv)) _

theorem POST_single_committed (n : Node) (a : Nat) (range : GoMap → List (GoString × JSON))
    (s : String) (v : JSON) (hm : n.store.m = some a)
    (hl : n.store.raft.state = RaftState.Leader)
    (hv : n.store.raft.verdict n.store.raft.entries.length = none)
    (hr : GoMap.Enumerates (decodedBatch [(s, v)]) (range (decodedBatch [(s, v)]))) :
    Service.ServeHTTP Store.asStoreInterface range n ResponseWriter.new
        { Method := "POST", Path := GoString.lit "/key", Body := Bytes.doc (JSON.object [(s, v)]) }
      = (n.committed a (GoString.lit s) v, ResponseWriter.new) := by
  have hp : HasPrefix (GoString.lit "/key") (GoString.lit "/key") = true := by decide
  have hg : ¬ ("POST" = "GET") := by decide
  have hrange : range (GoMap.empty.set (GoString.lit s) v) = [(GoString.lit s, v)] :=
    Enumerates_singleton _ _ (GoString.lit s) v rfl hr
  simp [Service.ServeHTTP, hp, Service.handleKeyRequest, hg, DecodeMap, Bytes.first, rangeOver,
    entriesOf, hrange, Service.setEach, Store.asStoreInterface, Set_commit n a hm hl hv]

/-! ## The claims -/

/-- C1 as amended. For every node whose store holds a map object, every key
`k` that is valid UTF-8 (`utf8.ValidString`) and every JSON value `v`: `fsm.Apply` on the entry `Store.Set(k, v)` encodes
(`json.Marshal` of `command{Op: "set", Key: k, Value: v}`) returns nil, the
resulting map is the old map with `k` bound to `v`, `Store.Get(k)` then
returns `v`, and `Get` of every other key is unchanged; the empty key and
the null value, which `omitempty` leaves out of the encoding, are covered.
On a leader whose engine commits the entry, `Store.Set(k, v)` submits exactly
that entry, returns nil and leaves that map.  For an arbitrary key `k`, valid
or not, the entry binds the key read back from the JSON text of `k`, in which
U+FFFD stands for every invalid byte. -/
theorem set_entry_round_trip (n : Node) (a : Nat) (hm : n.store.m = some a)
    (k : GoString) (hk : ValidString k = true) (v : JSON) :
    (fsm.Apply n { Data := Marshal { Op := "set", Key := k, Value := v } }).2
        = Outcome.returned JSON.null ∧
    (fsm.Apply n { Data := Marshal { Op := "set", Key := k, Value := v } }).1.content
        = n.content.set (k) v ∧
    Store.Get (fsm.Apply n
        { Data := Marshal { Op := "set", Key := k, Value := v } }).1 (k)
        = (v, none) ∧
    (∀ k2, k2 ≠ k →
      Store.Get (fsm.Apply n
        { Data := Marshal { Op := "set", Key := k, Value := v } }).1 k2
        = Store.Get n k2) ∧
    (n.store.raft.state = RaftState.Leader →
      n.store.raft.verdict n.store.raft.entries.length = none →
      (Store.Set n (k) v).2 = none ∧
      (Store.Set n (k) v).1.store.raft.entries
        = n.store.raft.entries ++ [Marshal { Op := "set", Key := k, Value := v }] ∧
      (Store.Set n (k) v).1.content = n.content.set (k) v) ∧
    (∀ k1 : GoString,
      (fsm.Apply n { Data := Marshal { Op := "set", Key := k1, Value := v } }).2
        = Outcome.returned JSON.null ∧
      (fsm.Apply n { Data := Marshal { Op := "set", Key := k1, Value := v } }).1.content
        = n.content.set (GoString.lit (jsonText k1)) v) := by
  have hgen : ∀ k1 : GoString,
      (fsm.Apply n { Data := Marshal { Op := "set", Key := k1, Value := v } }).2
        = Outcome.returned JSON.null ∧
      (fsm.Apply n { Data := Marshal { Op := "set", Key := k1, Value := v } }).1.content
        = n.content.set (entryKey k1) v := by
    intro k1
    rw [Apply_set_entry, applySet_of_some n a hm]
    exact ⟨rfl, by simp [content_write n a hm, content_of_some n a hm]⟩
  have hs := hgen k
  rw [entryKey_of_valid k hk] at hs
  refine ⟨hs.1, hs.2, ?_, ?_, ?_, hgen⟩
  · simp [Store.Get, hs.2, GoMap.index, GoMap.set]
  · intro k2 hk
    simp [Store.Get, hs.2, GoMap.index, GoMap.set, hk]
  · intro hl hv
    rw [Set_commit n a hm hl hv]
    refine ⟨rfl, rfl, ?_⟩
    simp [Node.committed, Node.content, hm, Heap.write, entryKey_of_valid k hk]

/-- Witness of C1 as amended on the example leader: the pair "x", "y", and
the empty key with the null value, whose entry holds the member `op` alone. -/
theorem set_entry_round_trip_witness :
    exampleLeader.store.m = some 0 ∧
    ValidString (GoString.lit "x") = true ∧
    Store.Get (fsm.Apply exampleLeader
      { Data := Marshal { Op := "set", Key := GoString.lit "x", Value := JSON.string "y" } }).1
        (GoString.lit "x")
      = (JSON.string "y", none) ∧
    Marshal { Op := "set", Key := GoString.lit "", Value := JSON.null }
      = Bytes.doc (JSON.object [("op", JSON.string "set")]) ∧
    (fsm.Apply exampleLeader
      { Data := Marshal { Op := "set", Key := GoString.lit "", Value := JSON.null } }).1.content
        (GoString.lit "")
      = some JSON.null ∧
    (Store.Set exampleLeader (GoString.lit "x") (JSON.string "y")).2 = none :=
  ⟨rfl,
    by decide,
    (set_entry_round_trip exampleLeader 0 rfl (GoString.lit "x") (by decide)
      (JSON.string "y")).2.2.1,
    by decide,
    by
      rw [(set_entry_round_trip exampleLeader 0 rfl (GoString.lit "") (by decide) JSON.null).2.1]
      simp [GoMap.set],
    ((set_entry_round_trip exampleLeader 0 rfl (GoString.lit "x") (by decide)
      (JSON.string "y")).2.2.2.2.1 rfl rfl).1⟩

/-- Counterexample to C1 as stated: the key made of the single byte 0xFF is
not valid UTF-8.  `Store.Set` of that key and "y" on the example leader
returns nil, yet `Store.Get` of the key then returns nil, not "y": the entry
bound the key U+FFFD (the bytes EF BF BD) instead. -/
theorem set_of_invalid_key_binds_another :
    ValidString [0xFF] = false ∧
    (Store.Set exampleLeader [0xFF] (JSON.string "y")).2 = none ∧
    Store.Get (Store.Set exampleLeader [0xFF] (JSON.string "y")).1 [0xFF] = (JSON.null, none) ∧
    Store.Get (fsm.Apply exampleLeader
      { Data := Marshal { Op := "set", Key := [0xFF], Value := JSON.string "y" } }).1 [0xFF]
      = (JSON.null, none) ∧
    (fsm.Apply exampleLeader
      { Data := Marshal { Op := "set", Key := [0xFF], Value := JSON.string "y" } }).1.content
        [0xEF, 0xBF, 0xBD]
      = some (JSON.string "y") := by
  decide

/-- C2 as amended. For every node and every key `k` that is valid UTF-8
(`utf8.ValidString`): `fsm.Apply` on the entry
`Store.Delete(k)` encodes returns nil (no error, no panic) and leaves the old
map without `k`: `k` is absent, `Store.Get(k)` returns nil, and `Get` of every
other key is unchanged.  When `k` was absent the node is unchanged, and
applying the entry a second time changes nothing more.  On a leader whose
engine commits the entry, `Store.Delete(k)` submits exactly that entry and
returns nil.  For an arbitrary key `k`, valid or not, the entry returns nil
and removes the key read back from the JSON text of `k`, in which U+FFFD
stands for every invalid byte; applying it twice is the same as once. -/
theorem delete_entry_idempotent (n : Node) (k : GoString) (hk : ValidString k = true) :
    (fsm.Apply n { Data := Marshal { Op := "delete", Key := k } }).2
        = Outcome.returned JSON.null ∧
    (fsm.Apply n { Data := Marshal { Op := "delete", Key := k } }).1.content
        = n.content.delete (k) ∧
    (fsm.Apply n { Data := Marshal { Op := "delete", Key := k } }).1.content
        (k) = none ∧
    Store.Get (fsm.Apply n
        { Data := Marshal { Op := "delete", Key := k } }).1 (k)
        = (JSON.null, none) ∧
    (∀ k2, k2 ≠ k →
      Store.Get (fsm.Apply n { Data := Marshal { Op := "delete", Key := k } }).1 k2
        = Store.Get n k2) ∧
    (n.content (k) = none →
      (fsm.Apply n { Data := Marshal { Op := "delete", Key := k } }).1 = n) ∧
    (fsm.Apply (fsm.Apply n { Data := Marshal { Op := "delete", Key := k } }).1
        { Data := Marshal { Op := "delete", Key := k } }).1
      = (fsm.Apply n { Data := Marshal { Op := "delete", Key := k } }).1 ∧
    (n.store.raft.state = RaftState.Leader →
      n.store.raft.verdict n.store.raft.entries.length = none →
      (Store.Delete n (k)).2 = none ∧
      (Store.Delete n (k)).1.store.raft.entries
        = n.store.raft.entries ++ [Marshal { Op := "delete", Key := k }] ∧
      (Store.Delete n (k)).1.content = n.content.delete (k)) ∧
    (∀ k1 : GoString,
      (fsm.Apply n { Data := Marshal { Op := "delete", Key := k1 } }).2
        = Outcome.returned JSON.null ∧
      (fsm.Apply n { Data := Marshal { Op := "delete", Key := k1 } }).1.content
        = n.content.delete (GoString.lit (jsonText k1)) ∧
      (fsm.Apply (fsm.Apply n { Data := Marshal { Op := "delete", Key := k1 } }).1
          { Data := Marshal { Op := "delete", Key := k1 } }).1
        = (fsm.Apply n { Data := Marshal { Op := "delete", Key := k1 } }).1) := by
  have hidem : ∀ (m : Node) (k : GoString),
      (fsm.applyDelete (fsm.applyDelete m k).1 k).1 = (fsm.applyDelete m k).1 := by
    intro m k
    apply applyDelete_absent
    simp [applyDelete_content, GoMap.delete]
  have hgen : ∀ k1 : GoString,
      (fsm.Apply n { Data := Marshal { Op := "delete", Key := k1 } }).2
        = Outcome.returned JSON.null ∧
      (fsm.Apply n { Data := Marshal { Op := "delete", Key := k1 } }).1.content
        = n.content.delete (entryKey k1) ∧
      (fsm.Apply (fsm.Apply n { Data := Marshal { Op := "delete", Key := k1 } }).1
          { Data := Marshal { Op := "delete", Key := k1 } }).1
        = (fsm.Apply n { Data := Marshal { Op := "delete", Key := k1 } }).1 := by
    intro k1
    simp only [Apply_delete_entry]
    exact ⟨applyDelete_returned n _, applyDelete_content n _, hidem n _⟩
  have hk2 := entryKey_of_valid k hk
  simp only [Apply_delete_entry, hk2]
  refine ⟨applyDelete_returned n _, applyDelete_content n _, ?_, ?_, ?_,
    applyDelete_absent n _, hidem n _, ?_, ?_⟩
  · simp [applyDelete_content, GoMap.delete]
  · simp [Store.Get, applyDelete_content, GoMap.delete, GoMap.index]
  · intro k2 hk
    simp [Store.Get, applyDelete_content, GoMap.delete, GoMap.index, hk]
  · intro hl hv
    have hA : ∀ m : Node,
        fsm.Apply m { Data := Marshal { Op := "delete", Key := k } }
        = ((fsm.applyDelete m (k)).1, Outcome.returned JSON.null) := by
      intro m
      rw [Apply_delete_entry, hk2, ← applyDelete_returned m k]
    simp only [Store.Delete, hl, Raft.Apply, hv, hA]
    refine ⟨by simp, ?_, ?_⟩
    · simp only [ne_eq, not_true_eq_false, if_false]
      unfold fsm.applyDelete
      split <;> rfl
    · simp only [ne_eq, not_true_eq_false, if_false, applyDelete_content]
      rfl
  · intro k1
    have := hgen k1
    simp only [Apply_delete_entry] at this
    exact this

/-- Witness of C2 as amended: on the node that holds "a", deleting "a" leaves
it absent; on the empty example leader, where "a" is absent, the delete
changes nothing and `Store.Delete` succeeds. -/
theorem delete_entry_idempotent_witness :
    exampleStored.content (GoString.lit "a") = some (JSON.number { mant := 1, pow := 0 }) ∧
    (fsm.Apply exampleStored
      { Data := Marshal { Op := "delete", Key := GoString.lit "a" } }).1.content (GoString.lit "a")
      = none ∧
    exampleLeader.content (GoString.lit "a") = none ∧
    (fsm.Apply exampleLeader { Data := Marshal { Op := "delete", Key := GoString.lit "a" } }).1
      = exampleLeader ∧
    (Store.Delete exampleLeader (GoString.lit "a")).2 = none :=
  ⟨by decide,
    (delete_entry_idempotent exampleStored (GoString.lit "a") (by decide)).2.2.1,
    rfl,
    (delete_entry_idempotent exampleLeader (GoString.lit "a") (by decide)).2.2.2.2.2.1 rfl,
    ((delete_entry_idempotent exampleLeader (GoString.lit "a") (by decide)).2.2.2.2.2.2.2.1
      rfl rfl).1⟩

/-- Counterexample to C2 as stated: the key made of the single byte 0xFF is
not valid UTF-8 and is absent from the node that holds the key U+FFFD (the
bytes EF BF BD, another key) bound to "y".  Applying the entry
`Store.Delete` encodes for the key 0xFF removes the key U+FFFD: another key
is changed, and the map is changed although the deleted key was absent. -/
theorem delete_of_invalid_key_removes_another :
    ValidString [0xFF] = false ∧
    exampleReplacement.content [0xFF] = none ∧
    Store.Get exampleReplacement [0xEF, 0xBF, 0xBD] = (JSON.string "y", none) ∧
    Store.Get (fsm.Apply exampleReplacement
      { Data := Marshal { Op := "delete", Key := [0xFF] } }).1 [0xEF, 0xBF, 0xBD]
      = (JSON.null, none) ∧
    Store.Get (Store.Delete exampleReplacement [0xFF]).1 [0xEF, 0xBF, 0xBD]
      = (JSON.null, none) := by
  decide

/-- C3. For every node whose store holds an allocated map object with
contents `m`, and every sequence `cs` of set and delete commands: take
`fsm.Snapshot` (with a `range` order that lists the entries of `m`), let the
engine apply the entries of `cs`, and call `fsm.Restore` on any persisted form
`b` of the snapshot (a single JSON object that maps every key of the snapshot
to its value).  Then `Snapshot` returned no error; the snapshot's map holds
`m` when taken and still holds `m` after `cs`, although the store's own map
then holds the effect of `cs`; `Restore` returns no error and the store's map
is `m` again. -/
theorem restore_of_snapshot_discards_later_commands (n n1 n2 : Node) (a : Nat)
    (range : GoMap → List (GoString × JSON)) (cs : List command) (snap : fsmSnapshot)
    (e : Error) (b : Bytes)
    (hm : n.store.m = some a) (ha : a < n.heap.next)
    (hrange : GoMap.Enumerates n.content (range n.content))
    (hcs : ∀ c, c ∈ cs → c.Op = "set" ∨ c.Op = "delete")
    (hsnap : fsm.Snapshot range n = (n1, snap, e))
    (hrun : fsm.applyAll n1 (cs.map fun c => { Data := Marshal c }) = n2)
    (hpers : snap.PersistedAs n2.heap b) :
    e = none ∧
    n1.heap.maps snap.store = n.content ∧
    n2.content = cs.foldl command.effect n.content ∧
    n2.heap.maps snap.store = n.content ∧
    (fsm.Restore n2 b).2 = none ∧
    (fsm.Restore n2 b).1.content = n.content := by
  obtain ⟨s1, s2, s3, s4, s5, s6, s7⟩ := Snapshot_spec range n a hm ha hrange
  rw [hsnap] at s1 s2 s3 s4 s5 s6 s7
  simp only at s1 s2 s3 s4 s5 s6 s7
  have hm1 : n1.store.m = some a := by rw [s3, hm]
  obtain ⟨r1, r2, r3, r4, r5⟩ := applyAll_commands a cs hcs n1 hm1
  rw [hrun] at r1 r2 r3 r4 r5
  have hne : snap.store ≠ a := by rw [s1]; exact (Nat.ne_of_lt ha).symm
  have hsnap2 : n2.heap.maps snap.store = n.content := by
    rw [r5 _ hne, s1, s6]
  have hc1 : n1.content = n.content := by rw [content_of_some n1 a hm1, s7]
  obtain ⟨ms, rfl, hms⟩ := hpers
  obtain ⟨q1, q2, _⟩ := Restore_object n2 ms
  refine ⟨s2, by rw [s1, s6], by rw [r4, hc1], hsnap2, q1, ?_⟩
  rw [q2, foldl_set_of_Enumerates _ _ hms, hsnap2]

/-- Witness of C3: the node holding "a" = 1 is snapshotted, then "b" is set
to 2 and "a" is deleted, then the snapshot, persisted as the object with the
member "a" = 1, is restored: "a" is back and "b" is gone. -/
theorem restore_of_snapshot_discards_later_commands_witness :
    exampleStored.store.m = some 0 ∧
    (fsm.applyAll (fsm.Snapshot (fun _ => [(GoString.lit "a", JSON.number { mant := 1, pow := 0 })])
        exampleStored).1
      ([{ Op := "set", Key := GoString.lit "b", Value := JSON.number { mant := 2, pow := 0 } },
        { Op := "delete", Key := GoString.lit "a" }].map fun c => { Data := Marshal c })).content (GoString.lit "b")
      = some (JSON.number { mant := 2, pow := 0 }) ∧
    (fsm.Restore
      (fsm.applyAll (fsm.Snapshot (fun _ => [(GoString.lit "a", JSON.number { mant := 1, pow := 0 })])
          exampleStored).1
        ([{ Op := "set", Key := GoString.lit "b", Value := JSON.number { mant := 2, pow := 0 } },
          { Op := "delete", Key := GoString.lit "a" }].map fun c => { Data := Marshal c }))
      (Bytes.doc (JSON.object [("a", JSON.number { mant := 1, pow := 0 })]))).1.content
      = exampleStored.content ∧
    exampleStored.content (GoString.lit "a") = some (JSON.number { mant := 1, pow := 0 }) ∧
    exampleStored.content (GoString.lit "b") = none :=
  ⟨rfl,
    by decide,
    (restore_of_snapshot_discards_later_commands exampleStored _ _ 0
      (fun _ => [(GoString.lit "a", JSON.number { mant := 1, pow := 0 })])
      [{ Op := "set", Key := GoString.lit "b", Value := JSON.number { mant := 2, pow := 0 } },
        { Op := "delete", Key := GoString.lit "a" }]
      _ _ (Bytes.doc (JSON.object [("a", JSON.number { mant := 1, pow := 0 })]))
      rfl (by decide)
      (Enumerates_decodedBatch [("a", JSON.number { mant := 1, pow := 0 })] (by decide))
      (by decide) rfl rfl
      ⟨_, rfl, Enumerates_decodedBatch [("a", JSON.number { mant := 1, pow := 0 })]
        (by decide)⟩).2.2.2.2.2,
    by decide,
    by decide⟩

/-- C4. For every key, every value and every node whose engine reports a role
other than Leader: `Store.Set` and `Store.Delete` return the error
"not leader" and leave the node as it was; in particular nothing is submitted
to the engine (its list of submitted entries is unchanged, `raft.Apply` is not
called) and the map is unchanged. -/
theorem write_refused_when_not_leader (n : Node) (k : GoString) (v : JSON)
    (h : n.store.raft.state ≠ RaftState.Leader) :
    Store.Set n k v = (n, some "not leader") ∧
    Store.Delete n k = (n, some "not leader") ∧
    (Store.Set n k v).1.store.raft.entries = n.store.raft.entries ∧
    (Store.Delete n k).1.store.raft.entries = n.store.raft.entries ∧
    (Store.Set n k v).1.content = n.content ∧
    (Store.Delete n k).1.content = n.content := by
  simp [Store.Set, Store.Delete, h]

/-- Witness of C4 on the example follower. -/
theorem write_refused_when_not_leader_witness :
    exampleFollower.store.raft.state ≠ RaftState.Leader ∧
    Store.Set exampleFollower (GoString.lit "x") (JSON.string "y") = (exampleFollower, some "not leader") ∧
    Store.Delete exampleFollower (GoString.lit "x") = (exampleFollower, some "not leader") :=
  ⟨by decide,
    (write_refused_when_not_leader exampleFollower (GoString.lit "x") (JSON.string "y") (by decide)).1,
    (write_refused_when_not_leader exampleFollower (GoString.lit "x") (JSON.string "y") (by decide)).2.1⟩

/-- C5. A POST batch is submitted pair by pair through `store.Set`, and a
failure is not rolled back.  For every leader node with an allocated map,
every body object `ms`, and every order `pre ++ (k, v) :: post` in which
`range` visits the decoded batch: when the engine commits the entries of
`pre` and fails the entry of `k`, the response is 500; the entries submitted
are those of `pre` and of `k`, in that order, and none of `post`; every key of
`pre` is bound to its value; `k` and the keys of `post` hold what they held
before the request; the map is the old map with the pairs of `pre` set. -/
theorem batch_is_not_atomic (n : Node) (a : Nat) (range : GoMap → List (GoString × JSON))
    (ms : List (String × JSON)) (pre post : List (GoString × JSON)) (k : GoString)
    (v : JSON) (e : String)
    (hm : n.store.m = some a) (hl : n.store.raft.state = RaftState.Leader)
    (henum : GoMap.Enumerates (decodedBatch ms) (range (decodedBatch ms)))
    (horder : range (decodedBatch ms) = pre ++ (k, v) :: post)
    (hok : ∀ i, i < pre.length →
      n.store.raft.verdict (n.store.raft.entries.length + i) = none)
    (hfail : n.store.raft.verdict (n.store.raft.entries.length + pre.length) = some e) :
    (Service.ServeHTTP Store.asStoreInterface range n ResponseWriter.new
        { Method := "POST", Path := GoString.lit "/key", Body := Bytes.doc (JSON.object ms) }).2.code = 500 ∧
    (Service.ServeHTTP Store.asStoreInterface range n ResponseWriter.new
        { Method := "POST", Path := GoString.lit "/key", Body := Bytes.doc (JSON.object ms) }
      ).1.store.raft.entries
      = n.store.raft.entries ++
        (pre ++ [(k, v)]).map (fun kv => Marshal { Op := "set", Key := kv.1, Value := kv.2 }) ∧
    (∀ kv, kv ∈ pre →
      (Service.ServeHTTP Store.asStoreInterface range n ResponseWriter.new
        { Method := "POST", Path := GoString.lit "/key", Body := Bytes.doc (JSON.object ms) }
      ).1.content kv.1 = some kv.2) ∧
    (Service.ServeHTTP Store.asStoreInterface range n ResponseWriter.new
        { Method := "POST", Path := GoString.lit "/key", Body := Bytes.doc (JSON.object ms) }
      ).1.content k = n.content k ∧
    (∀ kv, kv ∈ post →
      (Service.ServeHTTP Store.asStoreInterface range n ResponseWriter.new
        { Method := "POST", Path := GoString.lit "/key", Body := Bytes.doc (JSON.object ms) }
      ).1.content kv.1 = n.content kv.1) ∧
    (Service.ServeHTTP Store.asStoreInterface range n ResponseWriter.new
        { Method := "POST", Path := GoString.lit "/key", Body := Bytes.doc (JSON.object ms) }
      ).1.content = pre.foldl (fun m kv => m.set kv.1 kv.2) n.content := by
  obtain ⟨s1, s2, s3, s4, s5, s6⟩ := committedAll_spec a pre n hm
  have hvalid : ∀ kv, kv ∈ pre → entryKey kv.1 = kv.1 := by
    intro kv hkv
    have hmem : (kv.1, kv.2) ∈ range (decodedBatch ms) := by
      rw [horder]; exact List.mem_append_left _ hkv
    exact valid_of_decodedBatch ms kv.1 kv.2 ((henum.2 kv.1 kv.2).mp hmem)
  rw [foldl_set_entryKey pre hvalid] at s5
  have hnd : ((pre ++ (k, v) :: post).map Prod.fst).Nodup := horder ▸ henum.1
  have hnd2 : (pre.map Prod.fst ++ k :: post.map Prod.fst).Nodup := by simpa using hnd
  have hpre : (pre.map Prod.fst).Nodup := (List.nodup_append.mp hnd2).1
  have hdisj := (List.nodup_append.mp hnd2).2.2
  have hkpre : k ∉ pre.map Prod.fst := fun h => hdisj h (by simp)
  have hpost : ∀ kv, kv ∈ post → kv.1 ∉ pre.map Prod.fst := by
    intro kv hkv h
    exact hdisj h (List.mem_cons_of_mem _ (List.mem_map_of_mem _ hkv))
  have hF : (n.committedAll a pre).store.raft.verdict
      (n.committedAll a pre).store.raft.entries.length = some e := by
    rw [s3, s4]; simpa using hfail
  have hrun : Service.ServeHTTP Store.asStoreInterface range n ResponseWriter.new
      { Method := "POST", Path := GoString.lit "/key", Body := Bytes.doc (JSON.object ms) }
      = ({ n.committedAll a pre with store := { (n.committedAll a pre).store with
            raft := { (n.committedAll a pre).store.raft with
              entries := (n.committedAll a pre).store.raft.entries ++
                [Marshal { Op := "set", Key := k, Value := v }] } } },
          { status := some 500, body := [] }) := by
    have hp : HasPrefix (GoString.lit "/key") (GoString.lit "/key") = true := by decide
    have hg : ¬ ("POST" = "GET") := by decide
    simp only [Service.ServeHTTP, hp, if_true, Service.handleKeyRequest, hg, if_false, DecodeMap,
      Bytes.first, rangeOver, Option.getD_some]
    have : range (List.foldl (fun m kv => m.set kv.1 kv.2) GoMap.empty (entriesOf ms))
        = pre ++ (k, v) :: post := horder
    rw [this, setEach_committed a _ _ pre n hm hl hok]
    simp [Service.setEach, Store.asStoreInterface, Set_fail _ (s2.trans hl) e hF,
      ResponseWriter.new, ResponseWriter.WriteHeader]
  rw [hrun]
  have hc : ∀ (N : Node) (es : List Bytes),
      ({ N with store := { N.store with raft := { N.store.raft with entries := es } } } : Node).content
        = N.content := by
    intro N es; rfl
  refine ⟨rfl, ?_, ?_, ?_, ?_, ?_⟩
  · simp [s4]
  · intro kv hkv
    simp only [hc, s5]
    exact foldl_set_of_mem pre kv.1 kv.2 _ hpre hkv
  · simp only [hc, s5]
    exact foldl_set_of_not_mem pre k _ hkpre
  · intro kv hkv
    simp only [hc, s5]
    exact foldl_set_of_not_mem pre kv.1 _ (hpost kv hkv)
  · simp only [hc, s5]

/-- Witness of C5, the batch with "a" = 1 and "b" = 2 visited in that order on
a leader whose engine commits the first entry and fails the second: the
response is 500, "a" is committed, "b" is absent, and two entries were
submitted. -/
theorem batch_is_not_atomic_witness :
    (Service.ServeHTTP Store.asStoreInterface
        (fun _ => [(GoString.lit "a", JSON.number { mant := 1, pow := 0 }),
          (GoString.lit "b", JSON.number { mant := 2, pow := 0 })])
        exampleFailingSecond ResponseWriter.new
        { Method := "POST", Path := GoString.lit "/key",
          Body := Bytes.doc (JSON.object [("a", JSON.number { mant := 1, pow := 0 }),
            ("b", JSON.number { mant := 2, pow := 0 })]) }).2.code = 500 ∧
    (Service.ServeHTTP Store.asStoreInterface
        (fun _ => [(GoString.lit "a", JSON.number { mant := 1, pow := 0 }),
          (GoString.lit "b", JSON.number { mant := 2, pow := 0 })])
        exampleFailingSecond ResponseWriter.new
        { Method := "POST", Path := GoString.lit "/key",
          Body := Bytes.doc (JSON.object [("a", JSON.number { mant := 1, pow := 0 }),
            ("b", JSON.number { mant := 2, pow := 0 })]) }).1.content (GoString.lit "a")
      = some (JSON.number { mant := 1, pow := 0 }) ∧
    (Service.ServeHTTP Store.asStoreInterface
        (fun _ => [(GoString.lit "a", JSON.number { mant := 1, pow := 0 }),
          (GoString.lit "b", JSON.number { mant := 2, pow := 0 })])
        exampleFailingSecond ResponseWriter.new
        { Method := "POST", Path := GoString.lit "/key",
          Body := Bytes.doc (JSON.object [("a", JSON.number { mant := 1, pow := 0 }),
            ("b", JSON.number { mant := 2, pow := 0 })]) }).1.content (GoString.lit "b")
      = exampleFailingSecond.content (GoString.lit "b") ∧
    exampleFailingSecond.content (GoString.lit "b") = none :=
  have h := batch_is_not_atomic exampleFailingSecond 0
    (fun _ => [(GoString.lit "a", JSON.number { mant := 1, pow := 0 }),
      (GoString.lit "b", JSON.number { mant := 2, pow := 0 })])
    [("a", JSON.number { mant := 1, pow := 0 }), ("b", JSON.number { mant := 2, pow := 0 })]
    [(GoString.lit "a", JSON.number { mant := 1, pow := 0 })] []
    (GoString.lit "b") (JSON.number { mant := 2, pow := 0 }) "leadership lost"
    rfl rfl
    (Enumerates_decodedBatch _ (by decide))
    rfl
    (by intro i hi; have h0 : i = 0 := by simpa using hi
        subst h0; rfl)
    rfl
  ⟨h.1, h.2.2.1 _ (List.mem_singleton_self _), h.2.2.2.1, rfl⟩

/-- C6. For every node and every log entry whose data does not decode into a
command (`json.Unmarshal` returns an error), or whose decoded op is neither
"set" nor "delete" (a missing or empty op decodes to the empty string):
`fsm.Apply` panics and the node, its map included, is exactly as before the
call. -/
theorem Apply_panics_on_undecodable_entry (n : Node) (l : Log)
    (h : (Unmarshal l.Data {}).2 ≠ none ∨
      ((Unmarshal l.Data {}).1.Op ≠ "set" ∧ (Unmarshal l.Data {}).1.Op ≠ "delete")) :
    ∃ msg, fsm.Apply n l = (n, Outcome.panicked msg) := by
  unfold fsm.Apply
  rcases hU : Unmarshal l.Data {} with ⟨c, err⟩
  rw [hU] at h
  cases err with
  | some e => exact ⟨_, rfl⟩
  | none =>
    rcases h with h | ⟨h1, h2⟩
    · exact absurd rfl h
    · simp only at h1 h2
      simp [h1, h2]

/-- Witness of C6 on the example leader: bytes that are no JSON, an entry
with the unknown op "incr", an entry without an op, and a set entry followed
by other bytes all panic and leave the node unchanged. -/
theorem Apply_panics_on_undecodable_entry_witness :
    (∃ msg, fsm.Apply exampleLeader { Data := Bytes.invalid }
      = (exampleLeader, Outcome.panicked msg)) ∧
    (∃ msg, fsm.Apply exampleLeader
      { Data := Bytes.doc (JSON.object [("op", JSON.string "incr"), ("key", JSON.string "x")]) }
      = (exampleLeader, Outcome.panicked msg)) ∧
    (∃ msg, fsm.Apply exampleLeader
      { Data := Bytes.doc (JSON.object [("key", JSON.string "x"), ("value", JSON.bool true)]) }
      = (exampleLeader, Outcome.panicked msg)) ∧
    (∃ msg, fsm.Apply exampleLeader
      { Data := Bytes.docThen (JSON.object [("op", JSON.string "set"), ("key", JSON.string "x")]) }
      = (exampleLeader, Outcome.panicked msg)) :=
  ⟨Apply_panics_on_undecodable_entry exampleLeader _ (Or.inl (by decide)),
    Apply_panics_on_undecodable_entry exampleLeader _ (Or.inr (by decide)),
    Apply_panics_on_undecodable_entry exampleLeader _ (Or.inr (by decide)),
    Apply_panics_on_undecodable_entry exampleLeader _ (Or.inl (by decide))⟩

/-- C7 as amended. For every POST request whose path starts with "/key" and
whose body does not begin with a JSON object (the stream decoder reads the
first JSON value of the body and ignores what follows it), on every store:
`store.Set` is not called (the journal of calls stays empty and the store is
unchanged) and nothing is written to the body; the status is 400, except
when the body begins with `null`, which decodes without error into the nil
map and is answered 200. -/
theorem post_without_object_sets_nothing {σ : Type} (store : storeInterface σ)
    (range : GoMap → List (GoString × JSON)) (s : σ) (r : Request)
    (hm : r.Method = "POST") (hp : HasPrefix r.Path (GoString.lit "/key") = true)
    (hb : ∀ ms, r.Body.first ≠ some (JSON.object ms)) :
    (Service.ServeHTTP (recording store) range (s, []) ResponseWriter.new r).1 = (s, []) ∧
    (Service.ServeHTTP (recording store) range (s, []) ResponseWriter.new r).2.code
      = (if r.Body.first = some JSON.null then 200 else 400) ∧
    (Service.ServeHTTP (recording store) range (s, []) ResponseWriter.new r).2.body = [] := by
  have hg : r.Method ≠ "GET" := by rw [hm]; decide
  simp only [Service.ServeHTTP, hp, if_true, Service.handleKeyRequest, hg, if_false, hm,
    DecodeMap]
  rcases hB : r.Body.first with _ | j
  · simp [ResponseWriter.new, ResponseWriter.WriteHeader, ResponseWriter.code]
  · cases j with
    | object ms => exact absurd hB (hb ms)
    | null =>
      simp [rangeOver, Service.setEach, ResponseWriter.new, ResponseWriter.code]
    | _ => simp [ResponseWriter.new, ResponseWriter.WriteHeader, ResponseWriter.code]

/-- Witness of C7 as amended: a body that is no JSON, a body that is a JSON
array, and a body that is a JSON array followed by other bytes are answered
400 without a call. -/
theorem post_without_object_sets_nothing_witness :
    Service.ServeHTTP (recording Store.asStoreInterface) (fun _ => []) (exampleLeader, [])
      ResponseWriter.new
      { Method := "POST", Path := GoString.lit "/key", Body := Bytes.invalid }
      = ((exampleLeader, []), { status := some 400, body := [] }) ∧
    (Service.ServeHTTP (recording Store.asStoreInterface) (fun _ => []) (exampleLeader, [])
      ResponseWriter.new
      { Method := "POST", Path := GoString.lit "/key",
        Body := Bytes.doc (JSON.array [JSON.string "a"]) }).2.code = 400 ∧
    (Service.ServeHTTP (recording Store.asStoreInterface) (fun _ => []) (exampleLeader, [])
      ResponseWriter.new
      { Method := "POST", Path := GoString.lit "/key",
        Body := Bytes.docThen (JSON.array [JSON.string "a"]) }).2.code = 400 :=
  ⟨Prod.ext
      (post_without_object_sets_nothing Store.asStoreInterface (fun _ => []) exampleLeader
        { Method := "POST", Path := GoString.lit "/key", Body := Bytes.invalid } rfl (by decide)
        (by intro ms h; cases h)).1
      (by decide),
    (post_without_object_sets_nothing Store.asStoreInterface (fun _ => []) exampleLeader
      { Method := "POST", Path := GoString.lit "/key",
        Body := Bytes.doc (JSON.array [JSON.string "a"]) }
      rfl (by decide) (by intro ms h; cases h)).2.1,
    (post_without_object_sets_nothing Store.asStoreInterface (fun _ => []) exampleLeader
      { Method := "POST", Path := GoString.lit "/key",
        Body := Bytes.docThen (JSON.array [JSON.string "a"]) }
      rfl (by decide) (by intro ms h; cases h)).2.1⟩

/-- Counterexample to C7 as stated, two bodies that are not a JSON object.
The body `null` is answered 200, not 400 (no `store.Set` call is made).  The
body made of the object with "a" = 1 followed by other bytes is answered 200
after `store.Set` was called for "a" and the entry was committed. -/
theorem post_null_answers_200 :
    (Service.ServeHTTP (recording Store.asStoreInterface) (fun _ => []) (exampleLeader, [])
      ResponseWriter.new
      { Method := "POST", Path := GoString.lit "/key", Body := Bytes.doc JSON.null }).2.code
      = 200 ∧
    (Service.ServeHTTP (recording Store.asStoreInterface) (fun _ => []) (exampleLeader, [])
      ResponseWriter.new
      { Method := "POST", Path := GoString.lit "/key", Body := Bytes.doc JSON.null }).1.2
      = [] ∧
    Bytes.docThen (JSON.object [("a", JSON.number { mant := 1, pow := 0 })])
      ≠ Bytes.doc (JSON.object [("a", JSON.number { mant := 1, pow := 0 })]) ∧
    (Service.ServeHTTP (recording Store.asStoreInterface)
      (fun _ => [(GoString.lit "a", JSON.number { mant := 1, pow := 0 })]) (exampleLeader, [])
      ResponseWriter.new
      { Method := "POST", Path := GoString.lit "/key",
        Body := Bytes.docThen (JSON.object [("a", JSON.number { mant := 1, pow := 0 })]) }
      ).2.code = 200 ∧
    (Service.ServeHTTP (recording Store.asStoreInterface)
      (fun _ => [(GoString.lit "a", JSON.number { mant := 1, pow := 0 })]) (exampleLeader, [])
      ResponseWriter.new
      { Method := "POST", Path := GoString.lit "/key",
        Body := Bytes.docThen (JSON.object [("a", JSON.number { mant := 1, pow := 0 })]) }
      ).1.2 = [Call.Set (GoString.lit "a") (JSON.number { mant := 1, pow := 0 })] ∧
    (Service.ServeHTTP (recording Store.asStoreInterface)
      (fun _ => [(GoString.lit "a", JSON.number { mant := 1, pow := 0 })]) (exampleLeader, [])
      ResponseWriter.new
      { Method := "POST", Path := GoString.lit "/key",
        Body := Bytes.docThen (JSON.object [("a", JSON.number { mant := 1, pow := 0 })]) }
      ).1.1.content (GoString.lit "a") = some (JSON.number { mant := 1, pow := 0 }) := by
  decide

/-- C8 as amended. For every node, whatever role its engine reports, and
every non-empty key `k` without "/": GET /key/k is answered 200 with one body
chunk, the JSON object whose single member holds the value the store's map
has for `k` (nil, written `null`, when `k` is absent: still 200); the node is
unchanged and the only call on the store is `Get(k)`, so the consensus engine
is not involved.  The member is named by the JSON text of `k`: by `k` itself
when `k` is valid UTF-8 (`utf8.ValidString`; the Go string of a text `s` is
then named `s`), and with U+FFFD for every invalid byte otherwise.  In particular, on a leader whose engine
commits the entry, after POST /key with the body holding "x" = "y" (answered
200), GET /key/x returns the object holding "x" = "y". -/
theorem get_answers_from_local_map (n : Node) (range : GoMap → List (GoString × JSON))
    (k : GoString) (b : Bytes) (hne : k ≠ []) (hk : 47 ∉ k) :
    Service.ServeHTTP Store.asStoreInterface range n ResponseWriter.new
        { Method := "GET", Path := GoString.lit "/key/" ++ k, Body := b }
      = (n, { status := some 200,
              body := [Bytes.doc (JSON.object [(jsonText k, n.content.index k)])] }) ∧
    (∀ s : String, k = GoString.lit s →
      Service.ServeHTTP Store.asStoreInterface range n ResponseWriter.new
        { Method := "GET", Path := GoString.lit "/key/" ++ k, Body := b }
      = (n, { status := some 200,
              body := [Bytes.doc (JSON.object [(s, n.content.index k)])] })) ∧
    (ValidString k = true → GoString.lit (jsonText k) = k) ∧
    (Service.ServeHTTP (recording Store.asStoreInterface) range (n, []) ResponseWriter.new
        { Method := "GET", Path := GoString.lit "/key/" ++ k, Body := b }).1 = (n, [Call.Get k]) ∧
    (n.content k = none →
      (Service.ServeHTTP Store.asStoreInterface range n ResponseWriter.new
        { Method := "GET", Path := GoString.lit "/key/" ++ k, Body := b }).2
        = { status := some 200, body := [Bytes.doc (JSON.object [(jsonText k, JSON.null)])] }) ∧
    (∀ a, n.store.m = some a → n.store.raft.state = RaftState.Leader →
      n.store.raft.verdict n.store.raft.entries.length = none →
      GoMap.Enumerates (decodedBatch [("x", JSON.string "y")])
        (range (decodedBatch [("x", JSON.string "y")])) →
      (Service.ServeHTTP Store.asStoreInterface range n ResponseWriter.new
        { Method := "POST", Path := GoString.lit "/key",
          Body := Bytes.doc (JSON.object [("x", JSON.string "y")]) }).2.code = 200 ∧
      (Service.ServeHTTP Store.asStoreInterface range
        (Service.ServeHTTP Store.asStoreInterface range n ResponseWriter.new
          { Method := "POST", Path := GoString.lit "/key",
            Body := Bytes.doc (JSON.object [("x", JSON.string "y")]) }).1
        ResponseWriter.new { Method := "GET", Path := GoString.lit "/key/x", Body := b }).2
        = { status := some 200,
            body := [Bytes.doc (JSON.object [("x", JSON.string "y")])] }) := by
  refine ⟨GET_key_path n range k b hne hk, ?_, entryKey_of_valid k, ?_, ?_, ?_⟩
  · intro s hs
    rw [GET_key_path n range k b hne hk, hs, jsonText_lit]
  · simp [Service.ServeHTTP, HasPrefix_key_path, Service.handleKeyRequest,
      getKey_key_path _ k b hk, hne, Store.asStoreInterface, Store.Get, recording]
  · intro habs
    rw [GET_key_path n range k b hne hk]
    simp [GoMap.index, habs]
  · intro a hm hl hv hr
    rw [POST_single_committed n a range "x" (JSON.string "y") hm hl hv hr]
    refine ⟨rfl, ?_⟩
    have hx : GoString.lit "/key/x" = GoString.lit "/key/" ++ GoString.lit "x" := by decide
    rw [hx, GET_key_path _ range (GoString.lit "x") b (by decide) (by decide)]
    have ht : jsonText (GoString.lit "x") = "x" := jsonText_lit "x"
    simp [Node.committed, Node.content, hm, Heap.write, GoMap.index, GoMap.set, entryKey_lit, ht]

/-- Witness of C8 as amended: on the example follower GET /key/x is answered
200 with "x" = null; on the example leader POST /key with "x" = "y" followed
by GET /key/x returns "x" = "y". -/
theorem get_answers_from_local_map_witness :
    Service.ServeHTTP Store.asStoreInterface (fun _ => [(GoString.lit "x", JSON.string "y")])
        exampleFollower ResponseWriter.new
        { Method := "GET", Path := GoString.lit "/key/" ++ GoString.lit "x",
          Body := Bytes.invalid }
      = (exampleFollower,
          { status := some 200, body := [Bytes.doc (JSON.object [("x", JSON.null)])] }) ∧
    (Service.ServeHTTP Store.asStoreInterface (fun _ => [(GoString.lit "x", JSON.string "y")])
        (Service.ServeHTTP Store.asStoreInterface
          (fun _ => [(GoString.lit "x", JSON.string "y")])
          exampleLeader ResponseWriter.new
          { Method := "POST", Path := GoString.lit "/key",
            Body := Bytes.doc (JSON.object [("x", JSON.string "y")]) }).1
        ResponseWriter.new
        { Method := "GET", Path := GoString.lit "/key/x", Body := Bytes.invalid }).2
      = { status := some 200, body := [Bytes.doc (JSON.object [("x", JSON.string "y")])] } :=
  ⟨(get_answers_from_local_map exampleFollower (fun _ => [(GoString.lit "x", JSON.string "y")])
      (GoString.lit "x") Bytes.invalid (by decide) (by decide)).2.1 "x" rfl,
    ((get_answers_from_local_map exampleLeader (fun _ => [(GoString.lit "x", JSON.string "y")])
      (GoString.lit "x") Bytes.invalid (by decide) (by decide)).2.2.2.2.2 0 rfl rfl rfl
      (Enumerates_decodedBatch _ (by decide))).2⟩

/-- Counterexample to C8 as stated: the key made of the single byte 0xFF
(the path "/key/%ff" once percent-decoded) is not empty and holds no "/".
On the node where the key U+FFFD is bound to "y", GET for the key 0xFF is
answered 200 with the object whose single member is named U+FFFD, not by the
key, and holds null: the value the map has for the key 0xFF, not the one it
has for U+FFFD. -/
theorem get_of_invalid_key_names_another :
    ValidString [0xFF] = false ∧
    (Service.ServeHTTP Store.asStoreInterface (fun _ => []) exampleReplacement
        ResponseWriter.new
        { Method := "GET", Path := GoString.lit "/key/" ++ [0xFF], Body := Bytes.invalid }).2
      = { status := some 200, body := [Bytes.doc (JSON.object [("\uFFFD", JSON.null)])] } ∧
    GoString.lit "\uFFFD" = [0xEF, 0xBF, 0xBD] ∧
    GoString.lit "\uFFFD" ≠ [0xFF] ∧
    exampleReplacement.content (GoString.lit "\uFFFD") = some (JSON.string "y") := by
  decide

/-- C9 as amended. For every request on every store: when its path does not
start with "/key", or its method is none of GET, POST and DELETE, the store
is not called (the journal of calls stays empty and the store is unchanged)
and nothing is written to the body; the status is 404 when the path does not
start with "/key" and 405 when it does.  Every path that starts with "/key"
is treated as a key path, also one outside the interface table. -/
theorem unrouted_requests_touch_no_store {σ : Type} (store : storeInterface σ)
    (range : GoMap → List (GoString × JSON)) (s : σ) (r : Request)
    (h : HasPrefix r.Path (GoString.lit "/key") = false ∨
      (r.Method ≠ "GET" ∧ r.Method ≠ "POST" ∧ r.Method ≠ "DELETE")) :
    (Service.ServeHTTP (recording store) range (s, []) ResponseWriter.new r).1 = (s, []) ∧
    (Service.ServeHTTP (recording store) range (s, []) ResponseWriter.new r).2.code
      = (if HasPrefix r.Path (GoString.lit "/key") then 405 else 404) ∧
    (Service.ServeHTTP (recording store) range (s, []) ResponseWriter.new r).2.body = [] := by
  by_cases hp : HasPrefix r.Path (GoString.lit "/key") = true
  · rcases h with h | ⟨h1, h2, h3⟩
    · rw [hp] at h; exact absurd h (by decide)
    · simp [Service.ServeHTTP, hp, Service.handleKeyRequest, h1, h2, h3, ResponseWriter.new,
        ResponseWriter.WriteHeader, ResponseWriter.code]
  · simp only [Bool.not_eq_true] at hp
    simp [Service.ServeHTTP, hp, ResponseWriter.new, ResponseWriter.WriteHeader,
      ResponseWriter.code]

/-- Witness of C9 as amended: GET /join is answered 404 and PUT /key/x is
answered 405, both without a call on the store. -/
theorem unrouted_requests_touch_no_store_witness :
    (Service.ServeHTTP (recording Store.asStoreInterface) (fun _ => []) (exampleLeader, [])
      ResponseWriter.new { Method := "GET", Path := GoString.lit "/join", Body := Bytes.invalid }).2.code
      = 404 ∧
    (Service.ServeHTTP (recording Store.asStoreInterface) (fun _ => []) (exampleLeader, [])
      ResponseWriter.new { Method := "PUT", Path := GoString.lit "/key/x", Body := Bytes.invalid }).2.code
      = 405 ∧
    (Service.ServeHTTP (recording Store.asStoreInterface) (fun _ => []) (exampleLeader, [])
      ResponseWriter.new { Method := "PUT", Path := GoString.lit "/key/x", Body := Bytes.invalid }).1
      = (exampleLeader, []) :=
  ⟨(unrouted_requests_touch_no_store Store.asStoreInterface (fun _ => []) exampleLeader
      { Method := "GET", Path := GoString.lit "/join", Body := Bytes.invalid } (Or.inl (by decide))).2.1,
    (unrouted_requests_touch_no_store Store.asStoreInterface (fun _ => []) exampleLeader
      { Method := "PUT", Path := GoString.lit "/key/x", Body := Bytes.invalid }
      (Or.inr (by decide))).2.1,
    (unrouted_requests_touch_no_store Store.asStoreInterface (fun _ => []) exampleLeader
      { Method := "PUT", Path := GoString.lit "/key/x", Body := Bytes.invalid }
      (Or.inr (by decide))).1⟩

/-- Counterexample to C9 as stated: "/keyfoo/x" is not a key path of the
interface table, yet GET /keyfoo/x is answered 200, not 404, and the store is
called with `Get("x")`. -/
theorem keyfoo_path_is_served :
    isKeyPath (GoString.lit "/keyfoo/x") = false ∧
    (Service.ServeHTTP (recording Store.asStoreInterface) (fun _ => []) (exampleFollower, [])
      ResponseWriter.new { Method := "GET", Path := GoString.lit "/keyfoo/x", Body := Bytes.invalid }).2.code
      = 200 ∧
    (Service.ServeHTTP (recording Store.asStoreInterface) (fun _ => []) (exampleFollower, [])
      ResponseWriter.new { Method := "GET", Path := GoString.lit "/keyfoo/x", Body := Bytes.invalid }).1.2
      = [Call.Get (GoString.lit "x")] := by
  decide

/-- C10, the failing input. DELETE /key/x on the example leader, whose engine
commits every entry: the handler calls `store.Delete("x")` twice, two delete
entries are submitted to the engine, and the status is 200. -/
theorem delete_submits_twice :
    (Service.ServeHTTP (recording Store.asStoreInterface) (fun _ => []) (exampleLeader, [])
      ResponseWriter.new { Method := "DELETE", Path := GoString.lit "/key/x", Body := Bytes.invalid }).1.2
      = [Call.Delete (GoString.lit "x"), Call.Delete (GoString.lit "x")] ∧
    (Service.ServeHTTP (recording Store.asStoreInterface) (fun _ => []) (exampleLeader, [])
      ResponseWriter.new { Method := "DELETE", Path := GoString.lit "/key/x", Body := Bytes.invalid }
      ).1.1.store.raft.entries
      = [Marshal { Op := "delete", Key := GoString.lit "x" },
        Marshal { Op := "delete", Key := GoString.lit "x" }] ∧
    (Service.ServeHTTP (recording Store.asStoreInterface) (fun _ => []) (exampleLeader, [])
      ResponseWriter.new { Method := "DELETE", Path := GoString.lit "/key/x", Body := Bytes.invalid }).2.code
      = 200 := by
  decide

/-! ## Further properties of the code -/

/-- The batch with "a" = 1 and "b" = 2 when `range` visits "b" first and the
engine fails that entry: the response is 500, only the entry for "b" was
submitted, and neither key is in the map ("a" was never submitted). -/
theorem batch_visited_b_first_commits_nothing :
    (Service.ServeHTTP Store.asStoreInterface
        (fun _ => [(GoString.lit "b", JSON.number { mant := 2, pow := 0 }),
          (GoString.lit "a", JSON.number { mant := 1, pow := 0 })])
        exampleFailingAll ResponseWriter.new
        { Method := "POST", Path := GoString.lit "/key",
          Body := Bytes.doc (JSON.object [("a", JSON.number { mant := 1, pow := 0 }),
            ("b", JSON.number { mant := 2, pow := 0 })]) }).2.code = 500 ∧
    (Service.ServeHTTP Store.asStoreInterface
        (fun _ => [(GoString.lit "b", JSON.number { mant := 2, pow := 0 }),
          (GoString.lit "a", JSON.number { mant := 1, pow := 0 })])
        exampleFailingAll ResponseWriter.new
        { Method := "POST", Path := GoString.lit "/key",
          Body := Bytes.doc (JSON.object [("a", JSON.number { mant := 1, pow := 0 }),
            ("b", JSON.number { mant := 2, pow := 0 })]) }).1.store.raft.entries
      = [Marshal
          { Op := "set", Key := GoString.lit "b", Value := JSON.number { mant := 2, pow := 0 } }] ∧
    (Service.ServeHTTP Store.asStoreInterface
        (fun _ => [(GoString.lit "b", JSON.number { mant := 2, pow := 0 }),
          (GoString.lit "a", JSON.number { mant := 1, pow := 0 })])
        exampleFailingAll ResponseWriter.new
        { Method := "POST", Path := GoString.lit "/key",
          Body := Bytes.doc (JSON.object [("a", JSON.number { mant := 1, pow := 0 }),
            ("b", JSON.number { mant := 2, pow := 0 })]) }).1.content (GoString.lit "a") = none ∧
    (Service.ServeHTTP Store.asStoreInterface
        (fun _ => [(GoString.lit "b", JSON.number { mant := 2, pow := 0 }),
          (GoString.lit "a", JSON.number { mant := 1, pow := 0 })])
        exampleFailingAll ResponseWriter.new
        { Method := "POST", Path := GoString.lit "/key",
          Body := Bytes.doc (JSON.object [("a", JSON.number { mant := 1, pow := 0 }),
            ("b", JSON.number { mant := 2, pow := 0 })]) }).1.content (GoString.lit "b") = none := by
  decide

/-- The DELETE case of `handleKeyRequest` on every store, for a request whose
path starts with "/key": with an empty key the status is 400 and the store is
not called; with a key `k`, when the first `Delete(k)` returns an error the
status is 500 and that is the only call; when it returns nil the status is
200 and `Delete(k)` has been called a second time. -/
theorem delete_request_calls {σ : Type} (store : storeInterface σ)
    (range : GoMap → List (GoString × JSON)) (s : σ) (r : Request)
    (hm : r.Method = "DELETE") (hp : HasPrefix r.Path (GoString.lit "/key") = true) :
    (getKey r = [] →
      Service.ServeHTTP (recording store) range (s, []) ResponseWriter.new r
        = ((s, []), { status := some 400, body := [] })) ∧
    (getKey r ≠ [] → (store.Delete s (getKey r)).2 ≠ none →
      Service.ServeHTTP (recording store) range (s, []) ResponseWriter.new r
        = (((store.Delete s (getKey r)).1, [Call.Delete (getKey r)]),
            { status := some 500, body := [] })) ∧
    (getKey r ≠ [] → (store.Delete s (getKey r)).2 = none →
      Service.ServeHTTP (recording store) range (s, []) ResponseWriter.new r
        = (((store.Delete (store.Delete s (getKey r)).1 (getKey r)).1,
              [Call.Delete (getKey r), Call.Delete (getKey r)]),
            { status := none, body := [] })) := by
  have hg : r.Method ≠ "GET" := by rw [hm]; decide
  have hpo : r.Method ≠ "POST" := by rw [hm]; decide
  refine ⟨?_, ?_, ?_⟩
  · intro hk
    simp [Service.ServeHTTP, hp, Service.handleKeyRequest, hg, hpo, hm, hk, ResponseWriter.new,
      ResponseWriter.WriteHeader]
  · intro hk he
    rcases hd : store.Delete s (getKey r) with ⟨s1, err⟩
    rw [hd] at he
    cases err with
    | none => exact absurd rfl he
    | some e =>
      simp [Service.ServeHTTP, hp, Service.handleKeyRequest, hg, hpo, hm, hk, recording, hd,
        ResponseWriter.new, ResponseWriter.WriteHeader]
  · intro hk he
    rcases hd : store.Delete s (getKey r) with ⟨s1, err⟩
    rw [hd] at he
    simp only at he
    subst he
    simp [Service.ServeHTTP, hp, Service.handleKeyRequest, hg, hpo, hm, hk, recording, hd,
      ResponseWriter.new]

/-- Witness of the DELETE property: DELETE /key on the example leader (empty
key), DELETE /key/x on the example follower (the call fails) and on the
example leader (the call succeeds and is repeated). -/
theorem delete_request_calls_witness :
    Service.ServeHTTP (recording Store.asStoreInterface) (fun _ => []) (exampleLeader, [])
        ResponseWriter.new { Method := "DELETE", Path := GoString.lit "/key", Body := Bytes.invalid }
      = ((exampleLeader, []), { status := some 400, body := [] }) ∧
    (Service.ServeHTTP (recording Store.asStoreInterface) (fun _ => []) (exampleFollower, [])
        ResponseWriter.new { Method := "DELETE", Path := GoString.lit "/key/x", Body := Bytes.invalid }).2
      = { status := some 500, body := [] } ∧
    (Service.ServeHTTP (recording Store.asStoreInterface) (fun _ => []) (exampleLeader, [])
        ResponseWriter.new { Method := "DELETE", Path := GoString.lit "/key/x", Body := Bytes.invalid }).1.2
      = [Call.Delete (GoString.lit "x"), Call.Delete (GoString.lit "x")] :=
  ⟨(delete_request_calls Store.asStoreInterface (fun _ => []) exampleLeader
      { Method := "DELETE", Path := GoString.lit "/key", Body := Bytes.invalid } rfl (by decide)).1
      (by decide),
    congrArg Prod.snd
      ((delete_request_calls Store.asStoreInterface (fun _ => []) exampleFollower
        { Method := "DELETE", Path := GoString.lit "/key/x", Body := Bytes.invalid } rfl (by decide)).2.1
        (by decide) (by decide)),
    congrArg (fun p => p.1.2)
      ((delete_request_calls Store.asStoreInterface (fun _ => []) exampleLeader
        { Method := "DELETE", Path := GoString.lit "/key/x", Body := Bytes.invalid } rfl (by decide)).2.2
        (by decide) (by decide))⟩

/-- The GET case of `handleKeyRequest` with an empty key, on every store whose
`Get` returns no error: the status is 400, yet `Get("")` is called and the
object with the member "" is written to the body. -/
theorem get_with_empty_key_still_reads {σ : Type} (store : storeInterface σ)
    (range : GoMap → List (GoString × JSON)) (s : σ) (r : Request)
    (hm : r.Method = "GET") (hp : HasPrefix r.Path (GoString.lit "/key") = true) (hk : getKey r = [])
    (he : (store.Get s []).2.2 = none) :
    Service.ServeHTTP (recording store) range (s, []) ResponseWriter.new r
      = (((store.Get s []).1, [Call.Get []]),
          { status := some 400, body := [Bytes.doc (JSON.object [("", (store.Get s []).2.1)])] }) := by
  rcases hd : store.Get s [] with ⟨s1, v, err⟩
  rw [hd] at he
  simp only at he
  subst he
  have ht : jsonText [] = "" := by decide
  simp [Service.ServeHTTP, hp, Service.handleKeyRequest, hm, hk, recording, hd,
    ResponseWriter.new, ResponseWriter.WriteHeader, ResponseWriter.WriteString, MarshalSingleton,
    ht]

/-- Witness of the empty-key GET property: GET /key on the example leader. -/
theorem get_with_empty_key_still_reads_witness :
    Service.ServeHTTP (recording Store.asStoreInterface) (fun _ => []) (exampleLeader, [])
        ResponseWriter.new { Method := "GET", Path := GoString.lit "/key", Body := Bytes.invalid }
      = ((exampleLeader, [Call.Get []]),
          { status := some 400, body := [Bytes.doc (JSON.object [("", JSON.null)])] }) :=
  get_with_empty_key_still_reads Store.asStoreInterface (fun _ => []) exampleLeader
    { Method := "GET", Path := GoString.lit "/key", Body := Bytes.invalid } rfl (by decide) (by decide) rfl

/-- The store's map stays an allocated map object: `New` makes one, and
`fsm.Apply` on any entry, `Store.Set`, `Store.Delete`, `fsm.Snapshot` and
`fsm.Restore` of an object document keep or make one. -/
theorem map_stays_allocated (raft : Raft) (n : Node) (l : Log) (k : GoString) (v : JSON)
    (range : GoMap → List (GoString × JSON)) (ms : List (String × JSON)) :
    (Store.New raft).Allocated ∧
    (n.Allocated → (fsm.Apply n l).1.Allocated) ∧
    (n.Allocated → (Store.Set n k v).1.Allocated) ∧
    (n.Allocated → (Store.Delete n k).1.Allocated) ∧
    (n.Allocated → (fsm.Snapshot range n).1.Allocated) ∧
    (fsm.Restore n (Bytes.doc (JSON.object ms))).1.Allocated := by
  have hApply : ∀ (m : Node) (l : Log), m.Allocated → (fsm.Apply m l).1.Allocated := by
    intro m l ⟨a, h1, h2⟩
    obtain ⟨f1, f2, _, _⟩ := Apply_frame m l
    exact ⟨a, by rw [f1, h1], by rw [f2]; exact h2⟩
  have hRaft : ∀ (m : Node) (b : Bytes), m.Allocated → (Raft.Apply m b).1.Allocated := by
    intro m b hA
    have hA1 := hApply { m with store := { m.store with raft := { m.store.raft with
      entries := m.store.raft.entries ++ [b] } } } { Data := b } hA
    simp only [Raft.Apply]
    cases m.store.raft.verdict m.store.raft.entries.length with
    | some err => exact hA
    | none =>
      simp only
      rcases hF : fsm.Apply { m with store := { m.store with raft := { m.store.raft with
        entries := m.store.raft.entries ++ [b] } } } { Data := b } with ⟨n2, out⟩
      rw [hF] at hA1
      cases out with
      | returned _ => exact hA1
      | panicked _ => exact hA1
  refine ⟨⟨0, rfl, Nat.zero_lt_one⟩, hApply n l, ?_, ?_, ?_, ?_⟩
  · intro hA
    unfold Store.Set
    split
    · exact hA
    · exact hRaft n _ hA
  · intro hA
    unfold Store.Delete
    split
    · exact hA
    · exact hRaft n _ hA
  · intro ⟨a, h1, h2⟩
    obtain ⟨f1, _, _⟩ := foldl_write_spec n.heap.next
      (rangeOver range (n.store.m.map n.heap.maps)) n.heap.make.2
    refine ⟨a, h1, ?_⟩
    show a < (List.foldl _ n.heap.make.2 _).next
    rw [f1]
    exact Nat.lt_succ_of_lt h2
  · exact ⟨n.heap.next, (Restore_object n ms).2.2, by simp [fsm.Restore, Heap.make, DecodeMap, Bytes.first, Heap.write]⟩

/-- Witness of the allocation property on the example leader: its map is
allocated, and stays so after an applied entry and after a restore. -/
theorem map_stays_allocated_witness :
    exampleLeader.Allocated ∧
    (fsm.Apply exampleLeader { Data := Bytes.invalid }).1.Allocated ∧
    (fsm.Restore exampleLeader (Bytes.doc (JSON.object []))).1.Allocated :=
  have h := map_stays_allocated exampleLeader.store.raft exampleLeader { Data := Bytes.invalid }
    (GoString.lit "x") JSON.null (fun _ => []) []
  ⟨h.1, h.2.1 h.1, h.2.2.2.2.2⟩


/-- Over HTTP, on the leader where the key U+FFFD is bound to "y" and whose
engine commits every entry: DELETE for the key made of the single byte 0xFF
(the path "/key/%ff" once percent-decoded) is answered 200 and removes the
key U+FFFD, the key its entries name. -/
theorem delete_request_for_invalid_key_removes_another :
    exampleReplacement.content [0xEF, 0xBF, 0xBD] = some (JSON.string "y") ∧
    (Service.ServeHTTP Store.asStoreInterface (fun _ => []) exampleReplacement
        ResponseWriter.new
        { Method := "DELETE", Path := GoString.lit "/key/" ++ [0xFF], Body := Bytes.invalid }
      ).2.code = 200 ∧
    (Service.ServeHTTP Store.asStoreInterface (fun _ => []) exampleReplacement
        ResponseWriter.new
        { Method := "DELETE", Path := GoString.lit "/key/" ++ [0xFF], Body := Bytes.invalid }
      ).1.content [0xEF, 0xBF, 0xBD] = none := by
  decide

end Raftstarter
